import Mathlib

/-!
# Medicine ledger chaincode (`chaincode/fabcar/go/fabcar.go`)

A shallow embedding of the five transactions of the medicine contract
(`InitLedger`, `CreateMedicine`, `QueryMedicine`, `QueryAllMedicines`,
`ChangeMedicineQuantity`) together with the pieces of their environment that
decide what they compute:

* Go strings and byte slices are lists of bytes;
* `encoding/json` is embedded for the one type the contract serialises
  (`Medicine`, six tagged string fields): the string escaper of `json.Marshal`,
  the validating scanner of `json.Unmarshal` and its decoding pass;
* the chaincode stub (`GetState`, `PutState`, `GetStateByRange`) is an explicit
  state: the committed writes, the calls the substrate rejects, and the trace
  of calls made.
-/

namespace Fabcar

/-! ## Bytes and Go strings -/

/-- One byte. -/
abbrev Byte := Fin 256

/-- A Go `string` or `[]byte`: an arbitrary sequence of bytes (not necessarily UTF-8). -/
abbrev GoString := List Byte

/-- The byte with the given value (conversion `byte(n)`, which truncates). -/
def byte (n : Nat) : Byte := Fin.ofNat n

/-- The bytes of an ASCII literal of the source text. -/
def ascii (s : String) : GoString := s.data.map (fun c => byte c.toNat)

/-! ## `unicode/utf8` -/

/-- The constant `utf8.RuneError` (U+FFFD). -/
def RuneError : Nat := 0xFFFD

/-- Tables `first` and `acceptRanges` of `unicode/utf8`: for a lead byte, the
length of the sequence it starts and the range accepted for the second byte;
`none` for the entries marked `xx` (continuation bytes, 0xC0, 0xC1, 0xF5..0xFF). -/
def first (s0 : Nat) : Option (Nat × Nat × Nat) :=
  if 0xC2 ≤ s0 ∧ s0 ≤ 0xDF then some (2, 0x80, 0xBF)
  else if s0 = 0xE0 then some (3, 0xA0, 0xBF)
  else if 0xE1 ≤ s0 ∧ s0 ≤ 0xEC then some (3, 0x80, 0xBF)
  else if s0 = 0xED then some (3, 0x80, 0x9F)
  else if 0xEE ≤ s0 ∧ s0 ≤ 0xEF then some (3, 0x80, 0xBF)
  else if s0 = 0xF0 then some (4, 0x90, 0xBF)
  else if 0xF1 ≤ s0 ∧ s0 ≤ 0xF3 then some (4, 0x80, 0xBF)
  else if s0 = 0xF4 then some (4, 0x80, 0x8F)
  else none

/-- The function `utf8.DecodeRune` (and `DecodeRuneInString`): the first rune of
`s` and its width in bytes; `(RuneError, 1)` for an invalid encoding and
`(RuneError, 0)` for the empty input.  The masks and shifts of the source
(`s0&mask2<<6 | s1&maskx` ...) are written with `%`, `*` and `+`. -/
def DecodeRune (s : GoString) : Nat × Nat :=
  match s with
  | [] => (RuneError, 0)
  | s0 :: _ =>
    if s0.val < 0x80 then (s0.val, 1) else
    match first s0.val with
    | none => (RuneError, 1)
    | some (sz, lo, hi) =>
      if s.length < sz then (RuneError, 1) else
      let s1 := (s.getD 1 0).val
      if s1 < lo ∨ hi < s1 then (RuneError, 1) else
      if sz ≤ 2 then ((s0.val % 32) * 64 + s1 % 64, 2) else
      let s2 := (s.getD 2 0).val
      if s2 < 0x80 ∨ 0xBF < s2 then (RuneError, 1) else
      if sz ≤ 3 then ((s0.val % 16) * 4096 + (s1 % 64) * 64 + s2 % 64, 3) else
      let s3 := (s.getD 3 0).val
      if s3 < 0x80 ∨ 0xBF < s3 then (RuneError, 1) else
      ((s0.val % 8) * 262144 + (s1 % 64) * 4096 + (s2 % 64) * 64 + s3 % 64, 4)

/-- The function `utf8.AppendRune` applied to an empty buffer: the UTF-8
encoding of rune `r`; surrogates and values above U+10FFFF encode as U+FFFD. -/
def AppendRune (r : Nat) : GoString :=
  if r ≤ 0x7F then [byte r]
  else if r ≤ 0x7FF then [byte (0xC0 + r / 64), byte (0x80 + r % 64)]
  else if 0x10FFFF < r ∨ (0xD800 ≤ r ∧ r ≤ 0xDFFF) then [0xEF, 0xBF, 0xBD]
  else if r ≤ 0xFFFF then
    [byte (0xE0 + r / 4096), byte (0x80 + r / 64 % 64), byte (0x80 + r % 64)]
  else
    [byte (0xF0 + r / 262144), byte (0x80 + r / 4096 % 64), byte (0x80 + r / 64 % 64),
      byte (0x80 + r % 64)]

/-- The loop of `utf8.Valid`, with `fuel` bounding the number of runes. -/
def ValidAux : Nat → GoString → Bool
  | _, [] => true
  | 0, _ :: _ => false
  | fuel + 1, b :: rest =>
    let d := DecodeRune (b :: rest)
    if d.1 = RuneError ∧ d.2 = 1 then false
    else ValidAux fuel ((b :: rest).drop d.2)

/-- The function `utf8.Valid` (`utf8.ValidString`): `s` consists entirely of
valid UTF-8-encoded runes. -/
def Valid (s : GoString) : Bool := ValidAux s.length s

/-- The loop of `toValidUTF8`, with `fuel` bounding the number of runes. -/
def toValidAux : Nat → GoString → GoString
  | _, [] => []
  | 0, _ :: _ => []
  | fuel + 1, b :: rest =>
    let d := DecodeRune (b :: rest)
    if d.1 = RuneError ∧ d.2 = 1 then [0xEF, 0xBF, 0xBD] ++ toValidAux fuel rest
    else (b :: rest).take d.2 ++ toValidAux fuel ((b :: rest).drop d.2)

/-- The coercion to valid UTF-8 that `encoding/json` applies to a string:
every byte that is not part of a well-formed sequence becomes U+FFFD (bytes
EF BF BD); well-formed sequences are kept. -/
def toValidUTF8 (s : GoString) : GoString := toValidAux s.length s

/-! ## `encoding/json`: encoding -/

/-- The table `hex` of `encoding/json`: the lower-case hexadecimal digit of `n < 16`. -/
def hex (n : Nat) : Byte := if n < 10 then byte (0x30 + n) else byte (0x57 + n)

/-- The table `htmlSafeSet`: the ASCII bytes that `json.Marshal` copies
unescaped (everything from the space on except `"`, `&`, `<`, `>` and `\`). -/
def htmlSafeSet (b : Nat) : Bool :=
  0x20 ≤ b ∧ b < 0x80 ∧ b ≠ 0x22 ∧ b ≠ 0x26 ∧ b ≠ 0x3C ∧ b ≠ 0x3E ∧ b ≠ 0x5C

/-- The escape that `appendString` writes for an ASCII byte outside
`htmlSafeSet` (the `switch b` of the source, as of Go 1.22; earlier releases
write the six-byte form for 0x08 and 0x0C too, which decodes to the same byte). -/
def escapeByte (b : Byte) : GoString :=
  if b.val = 0x5C ∨ b.val = 0x22 then [0x5C, b]          -- \\ and \"
  else if b.val = 0x08 then [0x5C, 0x62]                 -- \b
  else if b.val = 0x0C then [0x5C, 0x66]                 -- \f
  else if b.val = 0x0A then [0x5C, 0x6E]                 -- \n
  else if b.val = 0x0D then [0x5C, 0x72]                 -- \r
  else if b.val = 0x09 then [0x5C, 0x74]                 -- \t
  else [0x5C, 0x75, 0x30, 0x30, hex (b.val / 16), hex (b.val % 16)]

/-- The loop of `appendString` (with `escapeHTML = true`, as `json.Marshal`
calls it) over the remaining input, without the surrounding quotes.  `fuel`
bounds the number of iterations; each one consumes at least one byte. -/
def appendStringAux : Nat → GoString → GoString
  | _, [] => []
  | 0, _ :: _ => []
  | fuel + 1, b :: rest =>
    if b.val < 0x80 then
      (if htmlSafeSet b.val then [b] else escapeByte b) ++ appendStringAux fuel rest
    else
      let d := DecodeRune (b :: rest)
      if d.1 = RuneError ∧ d.2 = 1 then
        [0x5C, 0x75, 0x66, 0x66, 0x66, 0x64] ++ appendStringAux fuel rest  -- the text \ufffd
      else if d.1 = 0x2028 ∨ d.1 = 0x2029 then
        [0x5C, 0x75, 0x32, 0x30, 0x32, hex (d.1 % 16)]
          ++ appendStringAux fuel ((b :: rest).drop d.2)
      else
        (b :: rest).take d.2 ++ appendStringAux fuel ((b :: rest).drop d.2)

/-- The function `appendString` of `encoding/json`: the JSON string literal for `src`. -/
def appendString (src : GoString) : GoString :=
  [0x22] ++ appendStringAux src.length src ++ [0x22]

/-- Medicine describes basic details of what makes up a medicine. -/
structure Medicine where
  Name : GoString
  Concentration : GoString
  Form : GoString
  Expiration : GoString
  Quantity : GoString
  Code : GoString
  deriving DecidableEq, Repr

/-- The call `json.Marshal(medicine)` for a `Medicine`: an object with the six
fields in declaration order under their tag names.  Marshalling a struct of
strings cannot fail, so only the bytes are returned. -/
def Marshal (m : Medicine) : GoString :=
  ascii "\x7b\"name\":" ++ appendString m.Name
    ++ ascii ",\"concentration\":" ++ appendString m.Concentration
    ++ ascii ",\"form\":" ++ appendString m.Form
    ++ ascii ",\"expiration\":" ++ appendString m.Expiration
    ++ ascii ",\"quantity\":" ++ appendString m.Quantity
    ++ ascii ",\"code\":" ++ appendString m.Code
    ++ ascii "\x7d"

/-! ## `encoding/json`: the validating scanner (`scanner.go`) -/

/-- The step functions of the scanner (`stateBeginValue`, `stateInString`, ...);
`state0`, `state1`, `stateE`, ... are the states inside a number and `stateT`
... `stateNul` those inside `true`, `false` and `null`. -/
inductive Step where
  | stateBeginValueOrEmpty | stateBeginValue | stateBeginStringOrEmpty | stateBeginString
  | stateEndValue | stateEndTop
  | stateInString | stateInStringEsc | stateInStringEscU | stateInStringEscU1
  | stateInStringEscU12 | stateInStringEscU123
  | stateNeg | state1 | state0 | stateDot | stateDot0 | stateE | stateESign | stateE0
  | stateT | stateTr | stateTru | stateF | stateFa | stateFal | stateFals
  | stateN | stateNu | stateNul
  | stateError
  deriving DecidableEq, Repr

/-- The entries of the scanner stack `parseState`. -/
inductive ParseState where
  | parseObjectKey | parseObjectValue | parseArrayValue
  deriving DecidableEq, Repr

/-- The scanner: its next step function and the stack of composite values
being scanned (innermost first).  The field `err` of the source is non-nil
exactly when `step` is `stateError`. -/
structure scanner where
  step : Step
  parseState : List ParseState
  deriving DecidableEq, Repr

/-- The constant `maxNestingDepth`. -/
def maxNestingDepth : Nat := 10000

/-- The function `isSpace`. -/
def isSpace (c : Byte) : Bool :=
  c.val ≤ 0x20 ∧ (c.val = 0x20 ∨ c.val = 0x09 ∨ c.val = 0x0D ∨ c.val = 0x0A)

/-- The method `scanner.error`: records a syntax error. -/
def scanner.error (s : scanner) : scanner := ⟨Step.stateError, s.parseState⟩

/-- The method `pushParseState`, continuing in step `next`. -/
def pushParseState (s : scanner) (p : ParseState) (next : Step) : scanner :=
  if (p :: s.parseState).length ≤ maxNestingDepth then ⟨next, p :: s.parseState⟩
  else ⟨Step.stateError, p :: s.parseState⟩

/-- The method `popParseState`. -/
def popParseState (s : scanner) : scanner :=
  match s.parseState.tail with
  | [] => ⟨Step.stateEndTop, []⟩
  | rest => ⟨Step.stateEndValue, rest⟩

/-- The step `stateEndTop`: only space may follow the top-level value. -/
def stateEndTop (s : scanner) (c : Byte) : scanner :=
  if isSpace c then s else s.error

/-- The step `stateEndValue`: after a complete value. -/
def stateEndValue (s : scanner) (c : Byte) : scanner :=
  match s.parseState with
  | [] => stateEndTop ⟨Step.stateEndTop, []⟩ c
  | ps :: rest =>
    if isSpace c then ⟨Step.stateEndValue, ps :: rest⟩
    else match ps with
      | ParseState.parseObjectKey =>
        if c.val = 0x3A then ⟨Step.stateBeginValue, ParseState.parseObjectValue :: rest⟩
        else s.error
      | ParseState.parseObjectValue =>
        if c.val = 0x2C then ⟨Step.stateBeginString, ParseState.parseObjectKey :: rest⟩
        else if c.val = 0x7D then popParseState s
        else s.error
      | ParseState.parseArrayValue =>
        if c.val = 0x2C then ⟨Step.stateBeginValue, ps :: rest⟩
        else if c.val = 0x5D then popParseState s
        else s.error

/-- The step `stateBeginValue`: at the beginning of a value. -/
def stateBeginValue (s : scanner) (c : Byte) : scanner :=
  if isSpace c then s
  else if c.val = 0x7B then pushParseState s ParseState.parseObjectKey Step.stateBeginStringOrEmpty
  else if c.val = 0x5B then pushParseState s ParseState.parseArrayValue Step.stateBeginValueOrEmpty
  else if c.val = 0x22 then ⟨Step.stateInString, s.parseState⟩
  else if c.val = 0x2D then ⟨Step.stateNeg, s.parseState⟩
  else if c.val = 0x30 then ⟨Step.state0, s.parseState⟩
  else if c.val = 0x74 then ⟨Step.stateT, s.parseState⟩
  else if c.val = 0x66 then ⟨Step.stateF, s.parseState⟩
  else if c.val = 0x6E then ⟨Step.stateN, s.parseState⟩
  else if 0x31 ≤ c.val ∧ c.val ≤ 0x39 then ⟨Step.state1, s.parseState⟩
  else s.error

/-- The step `stateBeginValueOrEmpty`: after `[`. -/
def stateBeginValueOrEmpty (s : scanner) (c : Byte) : scanner :=
  if isSpace c then s
  else if c.val = 0x5D then stateEndValue s c
  else stateBeginValue s c

/-- The step `stateBeginString`: after `,` in an object. -/
def stateBeginString (s : scanner) (c : Byte) : scanner :=
  if isSpace c then s
  else if c.val = 0x22 then ⟨Step.stateInString, s.parseState⟩
  else s.error

/-- The step `stateBeginStringOrEmpty`: after `{`. -/
def stateBeginStringOrEmpty (s : scanner) (c : Byte) : scanner :=
  if isSpace c then s
  else if c.val = 0x7D then
    stateEndValue ⟨s.step, ParseState.parseObjectValue :: s.parseState.tail⟩ c
  else stateBeginString s c

/-- The step `stateInString`. -/
def stateInString (s : scanner) (c : Byte) : scanner :=
  if c.val = 0x22 then ⟨Step.stateEndValue, s.parseState⟩
  else if c.val = 0x5C then ⟨Step.stateInStringEsc, s.parseState⟩
  else if c.val < 0x20 then s.error
  else s

/-- The step `stateInStringEsc`: after a backslash in a string. -/
def stateInStringEsc (s : scanner) (c : Byte) : scanner :=
  if c.val = 0x62 ∨ c.val = 0x66 ∨ c.val = 0x6E ∨ c.val = 0x72 ∨ c.val = 0x74
      ∨ c.val = 0x5C ∨ c.val = 0x2F ∨ c.val = 0x22 then
    ⟨Step.stateInString, s.parseState⟩
  else if c.val = 0x75 then ⟨Step.stateInStringEscU, s.parseState⟩
  else s.error

/-- The test shared by `stateInStringEscU` ... `stateInStringEscU123`: a hexadecimal digit. -/
def isHexDigit (c : Byte) : Bool :=
  (0x30 ≤ c.val ∧ c.val ≤ 0x39) ∨ (0x61 ≤ c.val ∧ c.val ≤ 0x66) ∨ (0x41 ≤ c.val ∧ c.val ≤ 0x46)

/-- A decimal digit. -/
def isDigit (c : Byte) : Bool := 0x30 ≤ c.val ∧ c.val ≤ 0x39

/-- The step `state0`: after a leading `0` or the integer part of a number. -/
def state0 (s : scanner) (c : Byte) : scanner :=
  if c.val = 0x2E then ⟨Step.stateDot, s.parseState⟩
  else if c.val = 0x65 ∨ c.val = 0x45 then ⟨Step.stateE, s.parseState⟩
  else stateEndValue s c

/-- The step `stateESign`: after the sign of an exponent. -/
def stateESign (s : scanner) (c : Byte) : scanner :=
  if isDigit c then ⟨Step.stateE0, s.parseState⟩ else s.error

/-- Expects byte `want` and continues in step `next` (the steps inside
`true`, `false` and `null`). -/
def expectByte (s : scanner) (c : Byte) (want : Nat) (next : Step) : scanner :=
  if c.val = want then ⟨next, s.parseState⟩ else s.error

/-- One call `s.step(s, c)`: dispatch on the current step function. -/
def scanner.stepByte (s : scanner) (c : Byte) : scanner :=
  match s.step with
  | Step.stateBeginValueOrEmpty => stateBeginValueOrEmpty s c
  | Step.stateBeginValue => stateBeginValue s c
  | Step.stateBeginStringOrEmpty => stateBeginStringOrEmpty s c
  | Step.stateBeginString => stateBeginString s c
  | Step.stateEndValue => stateEndValue s c
  | Step.stateEndTop => stateEndTop s c
  | Step.stateInString => stateInString s c
  | Step.stateInStringEsc => stateInStringEsc s c
  | Step.stateInStringEscU =>
    if isHexDigit c then ⟨Step.stateInStringEscU1, s.parseState⟩ else s.error
  | Step.stateInStringEscU1 =>
    if isHexDigit c then ⟨Step.stateInStringEscU12, s.parseState⟩ else s.error
  | Step.stateInStringEscU12 =>
    if isHexDigit c then ⟨Step.stateInStringEscU123, s.parseState⟩ else s.error
  | Step.stateInStringEscU123 =>
    if isHexDigit c then ⟨Step.stateInString, s.parseState⟩ else s.error
  | Step.stateNeg =>
    if c.val = 0x30 then ⟨Step.state0, s.parseState⟩
    else if 0x31 ≤ c.val ∧ c.val ≤ 0x39 then ⟨Step.state1, s.parseState⟩
    else s.error
  | Step.state1 => if isDigit c then s else state0 s c
  | Step.state0 => state0 s c
  | Step.stateDot => if isDigit c then ⟨Step.stateDot0, s.parseState⟩ else s.error
  | Step.stateDot0 =>
    if isDigit c then s
    else if c.val = 0x65 ∨ c.val = 0x45 then ⟨Step.stateE, s.parseState⟩
    else stateEndValue s c
  | Step.stateE =>
    if c.val = 0x2B ∨ c.val = 0x2D then ⟨Step.stateESign, s.parseState⟩ else stateESign s c
  | Step.stateESign => stateESign s c
  | Step.stateE0 => if isDigit c then s else stateEndValue s c
  | Step.stateT => expectByte s c 0x72 Step.stateTr
  | Step.stateTr => expectByte s c 0x75 Step.stateTru
  | Step.stateTru => expectByte s c 0x65 Step.stateEndValue
  | Step.stateF => expectByte s c 0x61 Step.stateFa
  | Step.stateFa => expectByte s c 0x6C Step.stateFal
  | Step.stateFal => expectByte s c 0x73 Step.stateFals
  | Step.stateFals => expectByte s c 0x65 Step.stateEndValue
  | Step.stateN => expectByte s c 0x75 Step.stateNu
  | Step.stateNu => expectByte s c 0x6C Step.stateNul
  | Step.stateNul => expectByte s c 0x6C Step.stateEndValue
  | Step.stateError => s

/-- The scanner after `scan.reset()`. -/
def scanner.reset : scanner := ⟨Step.stateBeginValue, []⟩

/-- The scanner after stepping through `data`.  (`checkValid` stops at the
first error; the error step is absorbing, so stepping on gives the same answer.) -/
def scanner.run (s : scanner) (data : GoString) : scanner := data.foldl scanner.stepByte s

/-- The method `scanner.eof`: `true` when the input seen so far is one complete
JSON value (`scanEnd`), `false` for `scanError`. -/
def scanner.eof (s : scanner) : Bool :=
  if s.step = Step.stateError then false
  else if s.step = Step.stateEndTop then true
  else (s.stepByte 0x20).step = Step.stateEndTop

/-- The function `checkValid`: `true` when `data` is valid JSON (the source returns `nil`). -/
def checkValid (data : GoString) : Bool := (scanner.reset.run data).eof

/-! ## `encoding/json`: decoding (`decode.go`) -/

/-- The value of a hexadecimal digit, as in the loop of `getu4`. -/
def hexValue (c : Byte) : Option Nat :=
  if 0x30 ≤ c.val ∧ c.val ≤ 0x39 then some (c.val - 0x30)
  else if 0x61 ≤ c.val ∧ c.val ≤ 0x66 then some (c.val - 0x61 + 10)
  else if 0x41 ≤ c.val ∧ c.val ≤ 0x46 then some (c.val - 0x41 + 10)
  else none

/-- The function `getu4`: the rune of the escape `\uXXXX` at the start of `s`,
`none` where the source returns -1. -/
def getu4 (s : GoString) : Option Nat :=
  match s with
  | b :: u :: h1 :: h2 :: h3 :: h4 :: _ =>
    if b.val = 0x5C ∧ u.val = 0x75 then
      match hexValue h1, hexValue h2, hexValue h3, hexValue h4 with
      | some a, some b, some c, some d => some (((a * 16 + b) * 16 + c) * 16 + d)
      | _, _, _, _ => none
    else none
  | _ => none

/-- The function `utf16.DecodeRune` on a first surrogate `r1` and the result
`r2` of the second `getu4`: the code point of a valid pair, U+FFFD otherwise. -/
def utf16DecodeRune (r1 : Nat) (r2 : Option Nat) : Nat :=
  match r2 with
  | some r2 =>
    if 0xD800 ≤ r1 ∧ r1 < 0xDC00 ∧ 0xDC00 ≤ r2 ∧ r2 < 0xE000 then
      (r1 - 0xD800) * 1024 + (r2 - 0xDC00) + 0x10000
    else RuneError
  | none => RuneError

/-- The case `c == '\\'` of the loop of `unquoteBytes`: `e` is the byte after
the backslash and `es` the input after it.  Returns the bytes written and the
input after the escape sequence; `none` where the source returns `ok = false`. -/
def unquoteEscape (e : Byte) (es : GoString) : Option (GoString × GoString) :=
  if e.val = 0x22 ∨ e.val = 0x5C ∨ e.val = 0x2F ∨ e.val = 0x27 then some ([e], es)
  else if e.val = 0x62 then some ([0x08], es)
  else if e.val = 0x66 then some ([0x0C], es)
  else if e.val = 0x6E then some ([0x0A], es)
  else if e.val = 0x72 then some ([0x0D], es)
  else if e.val = 0x74 then some ([0x09], es)
  else if e.val = 0x75 then
    match getu4 (0x5C :: e :: es) with
    | none => none
    | some rr =>
      if 0xD800 ≤ rr ∧ rr < 0xE000 then
        if utf16DecodeRune rr (getu4 (es.drop 4)) ≠ RuneError then
          some (AppendRune (utf16DecodeRune rr (getu4 (es.drop 4))), es.drop 10)
        else some (AppendRune RuneError, es.drop 4)
      else some (AppendRune rr, es.drop 4)
  else none

/-- The decoding loop of `unquoteBytes` over the bytes between the quotes of a
string literal: escapes are resolved and the text is coerced to well-formed
UTF-8; `none` where the source returns `ok = false`.  (The source first tries
to return the input itself when it holds nothing to resolve; this loop computes
the same bytes.)  `fuel` bounds the number of iterations. -/
def unquoteAux : Nat → GoString → Option GoString
  | _, [] => some []
  | 0, _ :: _ => none
  | fuel + 1, c :: cs =>
    if c.val = 0x5C then
      match cs.head? with
      | none => none
      | some e =>
        match unquoteEscape e cs.tail with
        | none => none
        | some w => (unquoteAux fuel w.2).map (fun t => w.1 ++ t)
    else if c.val = 0x22 ∨ c.val < 0x20 then none
    else if c.val < 0x80 then (unquoteAux fuel cs).map (fun t => c :: t)
    else
      (unquoteAux fuel ((c :: cs).drop (DecodeRune (c :: cs)).2)).map
        (fun t => AppendRune (DecodeRune (c :: cs)).1 ++ t)

/-- The function `unquoteBytes`, applied to the bytes between the quotes. -/
def unquoteBytes (s : GoString) : Option GoString := unquoteAux s.length s

/-- Skips leading white space (`scanWhile(scanSkipSpace)`). -/
def skipSpace : GoString → GoString
  | [] => []
  | c :: cs => if isSpace c then skipSpace cs else c :: cs

/-- The string case of `rescanLiteral`, started after the opening quote: the
bytes up to the closing quote (a byte after a backslash is never the end) and
the input after that quote. -/
def scanString : GoString → GoString × GoString
  | [] => ([], [])
  | c :: cs =>
    if c.val = 0x22 then ([], cs)
    else if c.val = 0x5C then
      match cs with
      | [] => ([c], [])
      | d :: ds => (c :: d :: (scanString ds).1, (scanString ds).2)
    else (c :: (scanString cs).1, (scanString cs).2)

/-- The method `skip` on an array or object: the input after the bracket that
closes the composite value being skipped.  `depth` counts the brackets open,
`inStr` tells whether the position is inside a string literal. -/
def skipNested : Nat → Bool → GoString → GoString
  | _, _, [] => []
  | depth, true, c :: cs =>
    if c.val = 0x5C then
      match cs with
      | [] => []
      | _ :: ds => skipNested depth true ds
    else if c.val = 0x22 then skipNested depth false cs
    else skipNested depth true cs
  | depth, false, c :: cs =>
    if c.val = 0x22 then skipNested depth true cs
    else if c.val = 0x7B ∨ c.val = 0x5B then skipNested (depth + 1) false cs
    else if c.val = 0x7D ∨ c.val = 0x5D then
      if depth ≤ 1 then cs else skipNested (depth - 1) false cs
    else skipNested depth false cs

/-- The number case of `rescanLiteral`: the bytes a number is made of. -/
def isNumberByte (c : Byte) : Bool :=
  isDigit c ∨ c.val = 0x2E ∨ c.val = 0x65 ∨ c.val = 0x45 ∨ c.val = 0x2B ∨ c.val = 0x2D

/-- The six fields of `Medicine`. -/
inductive Field where
  | Name | Concentration | Form | Expiration | Quantity | Code
  deriving DecidableEq, Repr

/-- The JSON name of a field (its struct tag). -/
def Field.name : Field → GoString
  | Field.Name => ascii "name"
  | Field.Concentration => ascii "concentration"
  | Field.Form => ascii "form"
  | Field.Expiration => ascii "expiration"
  | Field.Quantity => ascii "quantity"
  | Field.Code => ascii "code"

/-- Assignment to a field (`v.SetString`). -/
def Field.set (f : Field) (m : Medicine) (v : GoString) : Medicine :=
  match f with
  | Field.Name => ⟨v, m.Concentration, m.Form, m.Expiration, m.Quantity, m.Code⟩
  | Field.Concentration => ⟨m.Name, v, m.Form, m.Expiration, m.Quantity, m.Code⟩
  | Field.Form => ⟨m.Name, m.Concentration, v, m.Expiration, m.Quantity, m.Code⟩
  | Field.Expiration => ⟨m.Name, m.Concentration, m.Form, v, m.Quantity, m.Code⟩
  | Field.Quantity => ⟨m.Name, m.Concentration, m.Form, m.Expiration, v, m.Code⟩
  | Field.Code => ⟨m.Name, m.Concentration, m.Form, m.Expiration, m.Quantity, v⟩

/-- The function `foldName` on ASCII: letters are upper-cased.  (Bytes above
0x7F are folded rune by rune in the source and stay above 0x7F; they are left
as they are here, which gives the same comparisons with the six ASCII names.) -/
def foldName (key : GoString) : GoString :=
  key.map (fun c => if 0x61 ≤ c.val ∧ c.val ≤ 0x7A then byte (c.val - 0x20) else c)

/-- The field an object key selects: the one whose name equals the key up to
case (none of the six names holds a letter with a non-ASCII case variant). -/
def fieldOf (key : GoString) : Option Field :=
  [Field.Name, Field.Concentration, Field.Form, Field.Expiration, Field.Quantity, Field.Code].find?
    (fun f => foldName f.name = foldName key)

/-- The method `value` for the value of one object member: `input` starts at
its first byte.  A string is stored in the selected field; `null` stores
nothing; any other value is skipped (for a known field the source records an
`UnmarshalTypeError` and goes on).  Returns the record and the input after
the value. -/
def storeValue (f : Option Field) (input : GoString) (m : Medicine) : Medicine × GoString :=
  match input with
  | [] => (m, [])
  | c :: cs =>
    if c.val = 0x22 then
      match f, unquoteBytes (scanString cs).1 with
      | some f, some v => (f.set m v, (scanString cs).2)
      | _, _ => (m, (scanString cs).2)
    else if c.val = 0x7B ∨ c.val = 0x5B then (m, skipNested 0 false input)
    else if c.val = 0x6E ∨ c.val = 0x74 then (m, cs.drop 3)      -- null, true
    else if c.val = 0x66 then (m, cs.drop 4)                     -- false
    else (m, input.dropWhile isNumberByte)

/-- The loop of the method `object` decoding into a `Medicine`: `input` starts
after `{` or after the `,` that ends a member.  The input has passed
`checkValid`; the branches a valid input cannot reach return the record as it
is.  `fuel` bounds the number of members. -/
def object : Nat → GoString → Medicine → Medicine
  | 0, _, m => m
  | fuel + 1, input, m =>
    match skipSpace input with
    | [] => m
    | c :: cs =>
      if c.val = 0x22 then
        match unquoteBytes (scanString cs).1, skipSpace (scanString cs).2 with
        | some key, _ :: afterColon =>
          let r := storeValue (fieldOf key) (skipSpace afterColon) m
          match skipSpace r.2 with
          | [] => r.1
          | d :: ds => if d.val = 0x2C then object fuel ds r.1 else r.1
        | _, _ => m
      else m

/-- The call `json.Unmarshal(data, medicine)`: the contents of `*medicine`
afterwards.  Invalid JSON leaves the record untouched, an object updates the
fields its members select, any other value is a type mismatch or `null` and
leaves the record untouched.  The `error` result is not modelled: both callers
discard it (`_ = json.Unmarshal(...)`). -/
def Unmarshal (data : GoString) (v : Medicine) : Medicine :=
  if checkValid data then
    match skipSpace data with
    | [] => v
    | c :: cs => if c.val = 0x7B then object (cs.length + 1) cs v else v
  else v

/-! ## Errors and formatting -/

/-- A Go `error` value, identified by its message (`err.Error()`). -/
structure GoError where
  msg : GoString
  deriving DecidableEq, Repr

deriving instance DecidableEq for Except

/-- The function `fmt.Sprintf` for a format with one `%s` verb and a string argument. -/
def Sprintf : GoString → GoString → GoString
  | [], _ => []
  | c :: cs, arg =>
    match cs with
    | d :: ds => if c.val = 0x25 ∧ d.val = 0x73 then arg ++ ds else c :: Sprintf cs arg
    | [] => [c]

/-- The function `fmt.Errorf` for a format with one `%s` verb: a new error
whose message is the formatted text. -/
def Errorf (format : String) (arg : GoString) : GoError := ⟨Sprintf (ascii format) arg⟩

/-- The function `strconv.Itoa` on a non-negative integer. -/
def Itoa (i : Nat) : GoString := ascii (Nat.repr i)

/-! ## The chaincode stub -/

/-- Modelled from the spec: the failure side of the ledger context (§6, "fails
on transport/storage error", "success | failure"), which is not part of this
repository.  Each field tells which calls the substrate rejects, and with
which error: `getState key`, `putState key value`, the range scan as a whole,
and the `i`-th `Next()` of its iterator. -/
structure Faults where
  getState : GoString → Option GoError
  putState : GoString → GoString → Option GoError
  getStateByRange : Option GoError
  next : Nat → Option GoError

/-- A call made on the stub or on a range iterator. -/
inductive Call where
  | GetState (key : GoString)
  | PutState (key value : GoString)
  | GetStateByRange (startKey endKey : GoString)
  | Next
  | Close
  deriving DecidableEq, Repr

/-- Modelled from the spec: the ledger context of §6, seen from the contract
(`ctx.GetStub()`).  `world` is the ledger state: the accepted writes, newest
first, the newest write of a key being its current value; `faults` says which
calls fail; `calls` is the trace of the calls made so far, oldest first. -/
structure Stub where
  world : List (GoString × GoString)
  faults : Faults
  calls : List Call

/-- Modelled from the spec: `get(key) -> bytes | absent`, failing on a storage error. -/
def GetState (s : Stub) (key : GoString) : Except GoError (Option GoString) × Stub :=
  match s.faults.getState key with
  | some e => (Except.error e, ⟨s.world, s.faults, s.calls ++ [Call.GetState key]⟩)
  | none => (Except.ok (s.world.lookup key), ⟨s.world, s.faults, s.calls ++ [Call.GetState key]⟩)

/-- Modelled from the spec: `put(key, value) -> success | failure`; the
result is the returned `error` (`none` for `nil`). -/
def PutState (s : Stub) (key value : GoString) : Option GoError × Stub :=
  match s.faults.putState key value with
  | some e => (some e, ⟨s.world, s.faults, s.calls ++ [Call.PutState key value]⟩)
  | none => (none, ⟨(key, value) :: s.world, s.faults, s.calls ++ [Call.PutState key value]⟩)

/-- The ledger's native key order: byte-wise lexicographic. -/
def keyLt : GoString → GoString → Bool
  | [], [] => false
  | [], _ :: _ => true
  | _ :: _, [] => false
  | a :: as, b :: bs => a.val < b.val ∨ (a.val = b.val ∧ keyLt as bs)

/-- Writes `key ↦ value` into a list of entries kept in ascending key order. -/
def upsert (key value : GoString) : List (GoString × GoString) → List (GoString × GoString)
  | [] => [(key, value)]
  | e :: rest =>
    if keyLt key e.1 then (key, value) :: e :: rest
    else if key = e.1 then (key, value) :: rest
    else e :: upsert key value rest

/-- The current key/value pairs of a ledger state, in key order: the writes
replayed from the oldest to the newest. -/
def currentState (world : List (GoString × GoString)) : List (GoString × GoString) :=
  world.foldr (fun e acc => upsert e.1 e.2 acc) []

/-- Modelled from the spec: `scan(startKey, endKey)`, an iterator over the
pairs from `startKey` (inclusive) to `endKey` (exclusive) in key order, the
empty string standing for an open end; the iterator is the list of pairs it
will yield. -/
def GetStateByRange (s : Stub) (startKey endKey : GoString) :
    Except GoError (List (GoString × GoString)) × Stub :=
  match s.faults.getStateByRange with
  | some e =>
    (Except.error e, ⟨s.world, s.faults, s.calls ++ [Call.GetStateByRange startKey endKey]⟩)
  | none =>
    (Except.ok ((currentState s.world).filter
        (fun e => !keyLt e.1 startKey ∧ (endKey = [] ∨ keyLt e.1 endKey))),
      ⟨s.world, s.faults, s.calls ++ [Call.GetStateByRange startKey endKey]⟩)

/-! ## The contract (`fabcar.go`) -/

/-- QueryResult structure used for handling result of query. -/
structure QueryResult where
  Key : GoString
  Record : Medicine
  deriving DecidableEq, Repr

/-- The value of `new(Medicine)`: every field the empty string. -/
def newMedicine : Medicine := ⟨[], [], [], [], [], []⟩

/-- The slice `medicines` of `InitLedger`. -/
def medicines : List Medicine :=
  [⟨ascii "Amoxicilina", ascii "250mg/5ml", ascii "Jarabe", ascii "31/12/2023", ascii "100",
      ascii "1234567"⟩,
   ⟨ascii "Ibuprofeno", ascii "400mg", ascii "Tableta", ascii "31/12/2024", ascii "100",
      ascii "1234567"⟩]

/-- The loop `for i, medicine := range medicines` of `InitLedger`, from index
`i` on: each record is marshalled and put under `"MEDICINE" + strconv.Itoa(i)`;
the first failing put ends the loop with a wrapped error. -/
def initLoop (s : Stub) : Nat → List Medicine → Option GoError × Stub
  | _, [] => (none, s)
  | i, medicine :: rest =>
    match PutState s (ascii "MEDICINE" ++ Itoa i) (Marshal medicine) with
    | (some err, s1) => (some (Errorf "Failed to put to world state. %s" err.msg), s1)
    | (none, s1) => initLoop s1 (i + 1) rest

/-- InitLedger adds a base set of medicines to the ledger. -/
def InitLedger (s : Stub) : Option GoError × Stub := initLoop s 0 medicines

/-- CreateMedicine adds a new medicine to the world state with given details. -/
def CreateMedicine (s : Stub) (medicineNumber name concentration form expiration quantity
    code : GoString) : Option GoError × Stub :=
  PutState s medicineNumber (Marshal ⟨name, concentration, form, expiration, quantity, code⟩)

/-- QueryMedicine returns the medicine stored in the world state with given id. -/
def QueryMedicine (s : Stub) (medicineNumber : GoString) : Except GoError Medicine × Stub :=
  match GetState s medicineNumber with
  | (Except.error err, s1) =>
    (Except.error (Errorf "Failed to read from world state. %s" err.msg), s1)
  | (Except.ok none, s1) => (Except.error (Errorf "%s does not exist" medicineNumber), s1)
  | (Except.ok (some medicineAsBytes), s1) =>
    (Except.ok (Unmarshal medicineAsBytes newMedicine), s1)

/-- The loop `for resultsIterator.HasNext()` of `QueryAllMedicines` over the
pairs the iterator still holds, `i` counting the calls of `Next()` made:
the results appended from here on, and the calls made on the iterator. -/
def iterate (f : Faults) : Nat → List (GoString × GoString) →
    Except GoError (List QueryResult) × List Call
  | _, [] => (Except.ok [], [])
  | i, queryResponse :: rest =>
    match f.next i with
    | some err => (Except.error err, [Call.Next])
    | none =>
      ((iterate f (i + 1) rest).1.map
          (fun results => ⟨queryResponse.1, Unmarshal queryResponse.2 newMedicine⟩ :: results),
        Call.Next :: (iterate f (i + 1) rest).2)

/-- QueryAllMedicines returns all medicines found in world state. -/
def QueryAllMedicines (s : Stub) : Except GoError (List QueryResult) × Stub :=
  match GetStateByRange s [] [] with
  | (Except.error err, s1) => (Except.error err, s1)
  | (Except.ok resultsIterator, s1) =>
    ((iterate s1.faults 0 resultsIterator).1,
      ⟨s1.world, s1.faults, s1.calls ++ (iterate s1.faults 0 resultsIterator).2 ++ [Call.Close]⟩)

/-- ChangeMedicineQuantity updates the quantity field of medicine with given id in world state. -/
def ChangeMedicineQuantity (s : Stub) (medicineNumber newQuantity : GoString) :
    Option GoError × Stub :=
  match QueryMedicine s medicineNumber with
  | (Except.error err, s1) => (some err, s1)
  | (Except.ok medicine, s1) =>
    PutState s1 medicineNumber
      (Marshal ⟨medicine.Name, medicine.Concentration, medicine.Form, medicine.Expiration,
        newQuantity, medicine.Code⟩)

/-! ## Vocabulary of the statements -/

/-- A stub on which no call fails, over the given ledger state. -/
def healthy (world : List (GoString × GoString)) : Stub :=
  ⟨world, ⟨fun _ => none, fun _ _ => none, none, fun _ => none⟩, []⟩

/-- All six fields are well-formed UTF-8 (`utf8.ValidString`). -/
def Medicine.ValidUTF8 (m : Medicine) : Prop :=
  Valid m.Name = true ∧ Valid m.Concentration = true ∧ Valid m.Form = true ∧
    Valid m.Expiration = true ∧ Valid m.Quantity = true ∧ Valid m.Code = true

/-- A sequence of `CreateMedicine` transactions, one per `(key, fields)` pair
and in list order: the `error` each call returned and the stub after the last. -/
def createAll : Stub → List (GoString × Medicine) → List (Option GoError) × Stub
  | s, [] => ([], s)
  | s, c :: cs =>
    ((CreateMedicine s c.1 c.2.Name c.2.Concentration c.2.Form c.2.Expiration c.2.Quantity
        c.2.Code).1 ::
      (createAll (CreateMedicine s c.1 c.2.Name c.2.Concentration c.2.Form c.2.Expiration
        c.2.Quantity c.2.Code).2 cs).1,
     (createAll (CreateMedicine s c.1 c.2.Name c.2.Concentration c.2.Form c.2.Expiration
        c.2.Quantity c.2.Code).2 cs).2)

/-- Entries in strictly ascending key order. -/
def Ascending (l : List (GoString × GoString)) : Prop :=
  l.Pairwise (fun a b => keyLt a.1 b.1 = true)

/-! ## UTF-8: decoding a rune and encoding it again -/

theorem first_some {x sz lo hi : Nat} (h : first x = some (sz, lo, hi)) :
    (sz = 2 ∧ 0xC2 ≤ x ∧ x ≤ 0xDF ∧ lo = 0x80 ∧ hi = 0xBF) ∨
    (sz = 3 ∧ 0xE0 ≤ x ∧ x ≤ 0xEF ∧ 0x80 ≤ lo ∧ hi ≤ 0xBF ∧ (x = 0xE0 → lo = 0xA0) ∧ (x = 0xED → hi = 0x9F)) ∨
    (sz = 4 ∧ 0xF0 ≤ x ∧ x ≤ 0xF4 ∧ 0x80 ≤ lo ∧ hi ≤ 0xBF ∧ (x = 0xF0 → lo = 0x90) ∧ (x = 0xF4 → hi = 0x8F)) := by
  unfold first at h
  split_ifs at h <;> simp only [Option.some.injEq, Prod.mk.injEq] at h <;> omega

theorem byte_val (n : Nat) (h : n < 256) : (byte n).val = n := by
  simp [byte, Fin.ofNat, Nat.mod_eq_of_lt h]

theorem byte_eq (n : Nat) (b : Byte) (h : n = b.val) : byte n = b := by
  apply Fin.ext; rw [byte_val n (by omega)]; exact h

theorem DecodeRune_chunk (b : Byte) (rest : GoString) (hb : 0x80 ≤ b.val)
    (h : ¬ ((DecodeRune (b :: rest)).1 = RuneError ∧ (DecodeRune (b :: rest)).2 = 1)) :
    ∃ chunk tail, b :: rest = chunk ++ tail ∧ chunk.length = (DecodeRune (b :: rest)).2 ∧
      2 ≤ chunk.length ∧ (∀ x ∈ chunk, 0x80 ≤ x.val) ∧ AppendRune (DecodeRune (b :: rest)).1 = chunk ∧
      0x80 ≤ (DecodeRune (b :: rest)).1 ∧
      ∀ t, DecodeRune (chunk ++ t) = DecodeRune (b :: rest) := by
  have hb2 : ¬ b.val < 0x80 := by omega
  cases hf : first b.val with
  | none => exact absurd (by simp [DecodeRune, hb2, hf]) h
  | some p =>
    obtain ⟨sz, lo, hi⟩ := p
    rcases first_some hf with ⟨rfl, h1, h2, rfl, rfl⟩ | ⟨rfl, h1, h2, h3, h4, h5, h6⟩ | ⟨rfl, h1, h2, h3, h4, h5, h6⟩
    · -- two bytes
      rcases rest with _ | ⟨s1, t1⟩
      · exact absurd (by simp [DecodeRune, hb2, hf, RuneError]) h
      · by_cases hr : s1.val < 0x80 ∨ 0xBF < s1.val
        · exact absurd (by simp [DecodeRune, hb2, hf, hr]) h
        · have hd : ∀ t, DecodeRune (b :: s1 :: t) = ((b.val % 32) * 64 + s1.val % 64, 2) := by
            intro t; simp [DecodeRune, hb2, hf, hr]
          refine ⟨[b, s1], t1, rfl, by rw [hd]; rfl, by simp, ?_, ?_, ?_, ?_⟩
          · intro x hx; simp at hx; rcases hx with rfl | rfl <;> omega
          · rw [hd]; simp only [AppendRune]
            rw [if_neg (by omega), if_pos (by omega)]
            rw [byte_eq _ b (by omega), byte_eq _ s1 (by omega)]
          · rw [hd]; simp only; omega
          · intro t; simp only [List.cons_append, List.nil_append]; rw [hd, hd]
    · -- three bytes
      rcases rest with _ | ⟨s1, _ | ⟨s2, t2⟩⟩
      · exact absurd (by simp [DecodeRune, hb2, hf, RuneError]) h
      · exact absurd (by simp [DecodeRune, hb2, hf, RuneError]) h
      · by_cases hr : s1.val < lo ∨ hi < s1.val
        · exact absurd (by simp [DecodeRune, hb2, hf, hr]) h
        · by_cases hr2 : s2.val < 0x80 ∨ 0xBF < s2.val
          · exact absurd (by simp [DecodeRune, hb2, hf, hr, hr2]) h
          · have hd : ∀ t, DecodeRune (b :: s1 :: s2 :: t) =
                ((b.val % 16) * 4096 + (s1.val % 64) * 64 + s2.val % 64, 3) := by
              intro t; simp [DecodeRune, hb2, hf, hr, hr2]
            refine ⟨[b, s1, s2], t2, rfl, by rw [hd]; rfl, by simp, ?_, ?_, ?_, ?_⟩
            · intro x hx; simp at hx; rcases hx with rfl | rfl | rfl <;> omega
            · rw [hd]; simp only [AppendRune]
              rw [if_neg (by omega), if_neg (by omega), if_neg (by omega), if_pos (by omega)]
              rw [byte_eq _ b (by omega), byte_eq _ s1 (by omega), byte_eq _ s2 (by omega)]
            · rw [hd]; simp only; omega
            · intro t; simp only [List.cons_append, List.nil_append]; rw [hd, hd]
    · -- four bytes
      rcases rest with _ | ⟨s1, _ | ⟨s2, _ | ⟨s3, t3⟩⟩⟩
      · exact absurd (by simp [DecodeRune, hb2, hf, RuneError]) h
      · exact absurd (by simp [DecodeRune, hb2, hf, RuneError]) h
      · exact absurd (by simp [DecodeRune, hb2, hf, RuneError]) h
      · by_cases hr : s1.val < lo ∨ hi < s1.val
        · exact absurd (by simp [DecodeRune, hb2, hf, hr]) h
        · by_cases hr2 : s2.val < 0x80 ∨ 0xBF < s2.val
          · exact absurd (by simp [DecodeRune, hb2, hf, hr, hr2]) h
          · by_cases hr3 : s3.val < 0x80 ∨ 0xBF < s3.val
            · exact absurd (by simp [DecodeRune, hb2, hf, hr, hr2, hr3]) h
            · have hd : ∀ t, DecodeRune (b :: s1 :: s2 :: s3 :: t) =
                  ((b.val % 8) * 262144 + (s1.val % 64) * 4096 + (s2.val % 64) * 64
                    + s3.val % 64, 4) := by
                intro t; simp [DecodeRune, hb2, hf, hr, hr2, hr3]
              refine ⟨[b, s1, s2, s3], t3, rfl, by rw [hd]; rfl, by simp, ?_, ?_, ?_, ?_⟩
              · intro x hx; simp at hx; rcases hx with rfl | rfl | rfl | rfl <;> omega
              · rw [hd]; simp only [AppendRune]
                rw [if_neg (by omega), if_neg (by omega), if_neg (by omega), if_neg (by omega)]
                rw [byte_eq _ b (by omega), byte_eq _ s1 (by omega), byte_eq _ s2 (by omega),
                  byte_eq _ s3 (by omega)]
              · rw [hd]; simp only; omega
              · intro t; simp only [List.cons_append, List.nil_append]; rw [hd, hd]

/-! ## The encoder loop -/

theorem DecodeRune_low (b : Byte) (rest : GoString) (hb : b.val < 0x80) :
    DecodeRune (b :: rest) = (b.val, 1) := by
  simp [DecodeRune, hb]

/-- Induction along the loop of `appendString`: the source text, the literal
body written for it, and the text coerced to valid UTF-8. -/
theorem appendStringAux_induction (P : GoString → GoString → GoString → Prop)
    (hnil : P [] [] [])
    (hsafe : ∀ b rest body out, b.val < 0x80 → htmlSafeSet b.val = true → P rest body out →
      P (b :: rest) (b :: body) (b :: out))
    (hesc : ∀ b rest body out, b.val < 0x80 → htmlSafeSet b.val = false → P rest body out →
      P (b :: rest) (escapeByte b ++ body) (b :: out))
    (hbad : ∀ b rest body out, 0x80 ≤ b.val → P rest body out →
      P (b :: rest) ([0x5C, 0x75, 0x66, 0x66, 0x66, 0x64] ++ body) ([0xEF, 0xBF, 0xBD] ++ out))
    (hsep : ∀ chunk tail body out r, (r = 0x2028 ∨ r = 0x2029) → AppendRune r = chunk →
      P tail body out →
      P (chunk ++ tail) ([0x5C, 0x75, 0x32, 0x30, 0x32, hex (r % 16)] ++ body) (chunk ++ out))
    (hrune : ∀ chunk tail body out r, 2 ≤ chunk.length → (∀ x ∈ chunk, 0x80 ≤ x.val) →
      AppendRune r = chunk → (∀ t, DecodeRune (chunk ++ t) = (r, chunk.length)) →
      P tail body out → P (chunk ++ tail) (chunk ++ body) (chunk ++ out)) :
    ∀ f s, s.length ≤ f → P s (appendStringAux f s) (toValidAux f s) := by
  intro f
  induction f with
  | zero =>
    intro s hl
    cases s with
    | nil => simpa [appendStringAux, toValidAux] using hnil
    | cons b rest => simp at hl
  | succ f ih =>
    intro s hl
    cases s with
    | nil => simpa [appendStringAux, toValidAux] using hnil
    | cons b rest =>
      have hl2 : rest.length ≤ f := by simpa using hl
      by_cases hb : b.val < 0x80
      · have hd : DecodeRune (b :: rest) = (b.val, 1) := DecodeRune_low b rest hb
        have := ih rest hl2
        have hne : ¬ (b.val = 65533 ∧ True) := by omega
        simp only [appendStringAux, toValidAux, hb, if_true, hd, RuneError]
        rw [if_neg hne]
        simp only [List.take_succ_cons, List.take_zero, List.drop_succ_cons, List.drop_zero,
          List.singleton_append]
        by_cases hs : htmlSafeSet b.val = true
        · simp only [hs, if_true, List.singleton_append]
          exact hsafe b rest _ _ hb hs this
        · simp only [hs]
          exact hesc b rest _ _ hb (by simpa using hs) this
      · by_cases hinv : (DecodeRune (b :: rest)).1 = RuneError ∧ (DecodeRune (b :: rest)).2 = 1
        · simp only [appendStringAux, toValidAux, hb, if_false, hinv, and_self, if_true]
          exact hbad b rest _ _ (by omega) (ih rest hl2)
        · obtain ⟨chunk, tail, hct, hlen, h2, hhigh, happ, _, hdec⟩ :=
            DecodeRune_chunk b rest (by omega) hinv
          have hdrop : (b :: rest).drop (DecodeRune (b :: rest)).2 = tail := by
            rw [← hlen, hct]; simp
          have htake : (b :: rest).take (DecodeRune (b :: rest)).2 = chunk := by
            rw [← hlen, hct]; simp
          have hlt : tail.length ≤ f := by
            have := congrArg List.length hct
            simp at this; omega
          have := ih tail hlt
          simp only [appendStringAux, toValidAux, hb, if_false, hinv, hdrop, htake]
          by_cases hsep2 : (DecodeRune (b :: rest)).1 = 0x2028 ∨ (DecodeRune (b :: rest)).1 = 0x2029
          · rw [if_pos hsep2]
            have hP := hsep chunk tail _ _ _ hsep2 happ this
            rw [← hct] at hP
            exact hP
          · rw [if_neg hsep2]
            have hP := hrune chunk tail _ _ (DecodeRune (b :: rest)).1 h2 hhigh happ
              (fun t => by rw [hdec t, hlen]) this
            rw [← hct] at hP
            exact hP

/-- Valid UTF-8 is left as it is by the coercion. -/
theorem toValidAux_of_valid : ∀ f s, s.length ≤ f → ValidAux f s = true → toValidAux f s = s := by
  intro f
  induction f with
  | zero =>
    intro s hl _
    cases s with
    | nil => rfl
    | cons b rest => simp at hl
  | succ f ih =>
    intro s hl hv
    cases s with
    | nil => rfl
    | cons b rest =>
      simp only [ValidAux] at hv
      by_cases hinv : (DecodeRune (b :: rest)).1 = RuneError ∧ (DecodeRune (b :: rest)).2 = 1
      · simp [hinv] at hv
      · rw [if_neg hinv] at hv
        have hpos : 1 ≤ (DecodeRune (b :: rest)).2 := by
          by_cases hb : b.val < 0x80
          · rw [DecodeRune_low b rest hb]
          · obtain ⟨chunk, tail, _, hlen, h2, _⟩ := DecodeRune_chunk b rest (by omega) hinv
            omega
        have hlt : ((b :: rest).drop (DecodeRune (b :: rest)).2).length ≤ f := by
          simp only [List.length_drop, List.length_cons] at hl ⊢; omega
        simp only [toValidAux]
        rw [if_neg hinv, ih _ hlt hv, List.take_append_drop]

theorem toValidUTF8_of_valid (s : GoString) (h : Valid s = true) : toValidUTF8 s = s :=
  toValidAux_of_valid s.length s (le_refl _) h

/-! ## The scanner on encoded strings -/

theorem run_cons (s : scanner) (c : Byte) (l : GoString) :
    s.run (c :: l) = (s.stepByte c).run l := rfl

theorem run_append (s : scanner) (a b : GoString) : s.run (a ++ b) = (s.run a).run b := by
  simp [scanner.run, List.foldl_append]

theorem hex_isHexDigit : ∀ n < 16, isHexDigit (hex n) = true := by decide

theorem hexValue_hex : ∀ n < 16, hexValue (hex n) = some n := by decide

theorem stepByte_inString_plain (st : List ParseState) (x : Byte)
    (h : 0x20 ≤ x.val ∧ x.val ≠ 0x22 ∧ x.val ≠ 0x5C) :
    (⟨Step.stateInString, st⟩ : scanner).stepByte x = ⟨Step.stateInString, st⟩ := by
  simp only [scanner.stepByte, stateInString]
  rw [if_neg (by omega), if_neg (by omega), if_neg (by omega)]

theorem run_inString_plain (st : List ParseState) (l : GoString)
    (h : ∀ x ∈ l, 0x20 ≤ x.val ∧ x.val ≠ 0x22 ∧ x.val ≠ 0x5C) :
    (⟨Step.stateInString, st⟩ : scanner).run l = ⟨Step.stateInString, st⟩ := by
  induction l with
  | nil => rfl
  | cons x l ih =>
    rw [run_cons, stepByte_inString_plain st x (h x (by simp))]
    exact ih (fun y hy => h y (by simp [hy]))

theorem run_escapeByte (b : Byte) (hb : b.val < 0x80) (st : List ParseState) :
    (⟨Step.stateInString, st⟩ : scanner).run (escapeByte b) = ⟨Step.stateInString, st⟩ := by
  have h1 := hex_isHexDigit (b.val / 16) (by omega)
  have h2 := hex_isHexDigit (b.val % 16) (by omega)
  unfold escapeByte
  split_ifs with c1 c2 c3 c4 c5 c6 <;>
    simp [scanner.run, scanner.stepByte, stateInString, stateInStringEsc, h1, h2,
      Fin.coe_ofNat_eq_mod, (by decide : isHexDigit (0x30 : Byte) = true)]
  · rcases c1 with c1 | c1 <;> simp [c1]

theorem run_sep (r : Nat) (hr : r = 0x2028 ∨ r = 0x2029) (st : List ParseState) :
    (⟨Step.stateInString, st⟩ : scanner).run [0x5C, 0x75, 0x32, 0x30, 0x32, hex (r % 16)]
      = ⟨Step.stateInString, st⟩ := by
  rcases hr with rfl | rfl <;> rfl

/-- The scanner reads the body of an encoded string as part of one string literal. -/
theorem run_appendStringAux (f : Nat) (s : GoString) (hl : s.length ≤ f)
    (st : List ParseState) :
    (⟨Step.stateInString, st⟩ : scanner).run (appendStringAux f s) = ⟨Step.stateInString, st⟩ := by
  revert st
  refine appendStringAux_induction (fun _ body _ => ∀ st,
    (⟨Step.stateInString, st⟩ : scanner).run body = ⟨Step.stateInString, st⟩)
    ?_ ?_ ?_ ?_ ?_ ?_ f s hl
  · intro st; rfl
  · intro b rest body _ hb hs ih st
    rw [run_cons, stepByte_inString_plain st b, ih]
    simp [htmlSafeSet] at hs; omega
  · intro b rest body _ hb _ ih st
    rw [run_append, run_escapeByte b hb, ih]
  · intro b rest body _ _ ih st
    rw [run_append, show (⟨Step.stateInString, st⟩ : scanner).run
      [0x5C, 0x75, 0x66, 0x66, 0x66, 0x64] = ⟨Step.stateInString, st⟩ from rfl, ih]
  · intro chunk tail body _ r hr _ ih st
    rw [run_append, run_sep r hr, ih]
  · intro chunk tail body _ r _ hh _ _ ih st
    rw [run_append, run_inString_plain st chunk, ih]
    intro x hx; have := hh x hx; omega

/-! ## Reading back an encoded string -/

theorem hex_plain : ∀ n < 16, (hex n).val ≠ 0x22 ∧ (hex n).val ≠ 0x5C := by decide

theorem scanString_quote (c : Byte) (t : GoString) (h : c.val = 0x22) :
    scanString (c :: t) = ([], t) := by
  rw [scanString.eq_def]; simp [h]

theorem scanString_esc (c d : Byte) (t : GoString) (h : c.val = 0x5C) :
    scanString (c :: d :: t) = (c :: d :: (scanString t).1, (scanString t).2) := by
  rw [scanString.eq_def]; simp [h]

theorem scanString_plain (c : Byte) (t : GoString) (h : c.val ≠ 0x22 ∧ c.val ≠ 0x5C) :
    scanString (c :: t) = (c :: (scanString t).1, (scanString t).2) := by
  rw [scanString.eq_def]; simp [h.1, h.2]

theorem scanString_plain_append (l t : GoString) (h : ∀ x ∈ l, x.val ≠ 0x22 ∧ x.val ≠ 0x5C) :
    scanString (l ++ t) = (l ++ (scanString t).1, (scanString t).2) := by
  induction l with
  | nil => simp
  | cons x l ih =>
    rw [List.cons_append, scanString_plain x _ (h x (by simp)), ih (fun y hy => h y (by simp [hy]))]
    simp

theorem scanString_escapeByte (b : Byte) (hb : b.val < 0x80) (t : GoString) :
    scanString (escapeByte b ++ t) = (escapeByte b ++ (scanString t).1, (scanString t).2) := by
  have h1 := hex_plain (b.val / 16) (by omega)
  have h2 := hex_plain (b.val % 16) (by omega)
  unfold escapeByte
  split_ifs <;>
    simp [scanString_esc, scanString_plain, h1, h2, Fin.coe_ofNat_eq_mod]

theorem scanString_sep (r : Nat) (t : GoString) :
    scanString ([0x5C, 0x75, 0x32, 0x30, 0x32, hex (r % 16)] ++ t)
      = ([0x5C, 0x75, 0x32, 0x30, 0x32, hex (r % 16)] ++ (scanString t).1, (scanString t).2) := by
  have h1 := hex_plain (r % 16) (by omega)
  simp [scanString_esc, scanString_plain, h1, Fin.coe_ofNat_eq_mod]

/-- The literal scan stops at the quote that closes an encoded string. -/
theorem scanString_appendStringAux (f : Nat) (s : GoString) (hl : s.length ≤ f)
    (rest : GoString) :
    scanString (appendStringAux f s ++ 0x22 :: rest) = (appendStringAux f s, rest) := by
  revert rest
  refine appendStringAux_induction (fun _ body _ => ∀ rest,
    scanString (body ++ 0x22 :: rest) = (body, rest)) ?_ ?_ ?_ ?_ ?_ ?_ f s hl
  · intro rest; exact scanString_quote _ _ rfl
  · intro b tail body _ hb hs ih rest
    rw [List.cons_append, scanString_plain b _ (by simp [htmlSafeSet] at hs; omega), ih]
  · intro b tail body _ hb _ ih rest
    rw [List.append_assoc, scanString_escapeByte b hb, ih]
  · intro b tail body _ _ ih rest
    rw [show [0x5C, 0x75, 0x66, 0x66, 0x66, 0x64] ++ body ++ 0x22 :: rest
        = 0x5C :: 0x75 :: ([0x66, 0x66, 0x66, 0x64] ++ (body ++ 0x22 :: rest)) from by simp,
      scanString_esc _ _ _ rfl,
      scanString_plain_append [0x66, 0x66, 0x66, 0x64] _
        (by simp [Fin.coe_ofNat_eq_mod]), ih]
    rfl
  · intro chunk tail body _ r _ _ ih rest
    rw [List.append_assoc, scanString_sep r, ih]
  · intro chunk tail body _ r _ hh _ _ ih rest
    rw [List.append_assoc, scanString_plain_append chunk _ (fun x hx => by have := hh x hx; omega), ih]

theorem unquoteAux_plain (g : Nat) (c : Byte) (t : GoString)
    (h : 0x20 ≤ c.val ∧ c.val < 0x80 ∧ c.val ≠ 0x22 ∧ c.val ≠ 0x5C) :
    unquoteAux (g + 1) (c :: t) = (unquoteAux g t).map (fun u => c :: u) := by
  rw [unquoteAux.eq_3, if_neg (by omega), if_neg (by omega), if_pos (by omega)]

theorem unquoteAux_rune (g : Nat) (chunk t : GoString) (r : Nat) (h2 : 2 ≤ chunk.length)
    (hh : ∀ x ∈ chunk, 0x80 ≤ x.val) (hd : DecodeRune (chunk ++ t) = (r, chunk.length)) :
    unquoteAux (g + 1) (chunk ++ t) = (unquoteAux g t).map (fun u => AppendRune r ++ u) := by
  cases chunk with
  | nil => simp at h2
  | cons c cs =>
    have hc := hh c (by simp)
    rw [List.cons_append] at hd ⊢
    rw [unquoteAux.eq_3, if_neg (by omega), if_neg (by omega), if_neg (by omega), hd]
    simp

theorem unquoteAux_backslash (g : Nat) (e : Byte) (es out rest : GoString)
    (h : unquoteEscape e es = some (out, rest)) :
    unquoteAux (g + 1) (0x5C :: e :: es) = (unquoteAux g rest).map (fun u => out ++ u) := by
  rw [unquoteAux.eq_3, if_pos (by rfl)]
  simp [h]

theorem unquoteEscape_escapeByte (b : Byte) (hb : b.val < 0x80)
    (hs : htmlSafeSet b.val = false) (t : GoString) :
    ∃ e es, escapeByte b ++ t = 0x5C :: e :: es ∧ unquoteEscape e es = some ([b], t) := by
  have h1 := hexValue_hex (b.val / 16) (by omega)
  have h2 := hexValue_hex (b.val % 16) (by omega)
  unfold escapeByte
  split_ifs with c1 c2 c3 c4 c5 c6
  · refine ⟨b, t, rfl, ?_⟩
    unfold unquoteEscape
    rw [if_pos (by omega)]
  · have : b = 0x08 := Fin.ext c2
    subst this; exact ⟨0x62, t, rfl, rfl⟩
  · have : b = 0x0C := Fin.ext c3
    subst this; exact ⟨0x66, t, rfl, rfl⟩
  · have : b = 0x0A := Fin.ext c4
    subst this; exact ⟨0x6E, t, rfl, rfl⟩
  · have : b = 0x0D := Fin.ext c5
    subst this; exact ⟨0x72, t, rfl, rfl⟩
  · have : b = 0x09 := Fin.ext c6
    subst this; exact ⟨0x74, t, rfl, rfl⟩
  · refine ⟨0x75, 0x30 :: 0x30 :: hex (b.val / 16) :: hex (b.val % 16) :: t, rfl, ?_⟩
    have hr : (0 * 16 + 0) * 16 * 16 + b.val / 16 * 16 + b.val % 16 = b.val := by omega
    have ha : AppendRune b.val = [b] := by
      simp only [AppendRune]; rw [if_pos (by omega), byte_eq _ b rfl]
    have hg : getu4 (0x5C :: 0x75 :: 0x30 :: 0x30 :: hex (b.val / 16) :: hex (b.val % 16) :: t)
        = some b.val := by
      simp only [getu4, h1, h2]
      simp [hexValue, Fin.coe_ofNat_eq_mod]
      omega
    unfold unquoteEscape
    simp only [hg]
    simp [Fin.coe_ofNat_eq_mod, ha]
    omega

theorem escapeByte_length_pos (b : Byte) : 1 ≤ (escapeByte b).length := by
  unfold escapeByte
  split_ifs <;> simp

theorem unquoteEscape_sep (r : Nat) (hr : r = 0x2028 ∨ r = 0x2029) (t : GoString) :
    unquoteEscape 0x75 (0x32 :: 0x30 :: 0x32 :: hex (r % 16) :: t) = some (AppendRune r, t) := by
  rcases hr with rfl | rfl <;> rfl

/-- Unquoting the body of an encoded string gives the string coerced to valid UTF-8. -/
theorem unquoteAux_appendStringAux (f : Nat) (s : GoString) (hl : s.length ≤ f)
    (g : Nat) (hg : (appendStringAux f s).length ≤ g) :
    unquoteAux g (appendStringAux f s) = some (toValidAux f s) := by
  revert g
  refine appendStringAux_induction (fun _ body out => ∀ g, body.length ≤ g →
    unquoteAux g body = some out) ?_ ?_ ?_ ?_ ?_ ?_ f s hl
  · intro g _; cases g <;> rfl
  · intro b tail body out hb hs ih g hg
    obtain ⟨g, rfl⟩ : ∃ k, g = k + 1 := ⟨g - 1, by simp at hg; omega⟩
    rw [unquoteAux_plain g b _ (by simp [htmlSafeSet] at hs; omega), ih g (by simpa using hg)]
    rfl
  · intro b tail body out hb hs ih g hg
    obtain ⟨e, es, he, hu⟩ := unquoteEscape_escapeByte b hb hs body
    have hpos := escapeByte_length_pos b
    obtain ⟨g, rfl⟩ : ∃ k, g = k + 1 := ⟨g - 1, by simp at hg; omega⟩
    rw [he, unquoteAux_backslash g e es [b] body hu, ih g (by simp at hg; omega)]
    rfl
  · intro b tail body out _ ih g hg
    obtain ⟨g, rfl⟩ : ∃ k, g = k + 1 := ⟨g - 1, by simp at hg; omega⟩
    rw [show [0x5C, 0x75, 0x66, 0x66, 0x66, 0x64] ++ body
        = 0x5C :: 0x75 :: (0x66 :: 0x66 :: 0x66 :: 0x64 :: body) from rfl,
      unquoteAux_backslash g 0x75 (0x66 :: 0x66 :: 0x66 :: 0x64 :: body) [0xEF, 0xBF, 0xBD] body rfl,
      ih g (by simp at hg; omega)]
    rfl
  · intro chunk tail body out r hr happ ih g hg
    obtain ⟨g, rfl⟩ : ∃ k, g = k + 1 := ⟨g - 1, by simp at hg; omega⟩
    have hu := unquoteEscape_sep r hr body
    rw [show [0x5C, 0x75, 0x32, 0x30, 0x32, hex (r % 16)] ++ body
        = 0x5C :: 0x75 :: (0x32 :: 0x30 :: 0x32 :: hex (r % 16) :: body) from rfl,
      unquoteAux_backslash g _ _ _ body hu, ih g (by simp at hg; omega), happ]
    rfl
  · intro chunk tail body out r h2 hh happ hd ih g hg
    obtain ⟨g, rfl⟩ : ∃ k, g = k + 1 := ⟨g - 1, by simp at hg; omega⟩
    rw [unquoteAux_rune g chunk body r h2 hh (hd body), ih g (by simp at hg; omega), happ]
    rfl

/-! ## Decoding an object member -/

theorem run_appendString (s : GoString) (st : List ParseState) :
    (⟨Step.stateBeginValue, st⟩ : scanner).run (appendString s) = ⟨Step.stateEndValue, st⟩ := by
  unfold appendString
  rw [run_append, run_append]
  have h1 : (⟨Step.stateBeginValue, st⟩ : scanner).run [0x22] = ⟨Step.stateInString, st⟩ := rfl
  rw [h1, run_appendStringAux s.length s (le_refl _)]
  rfl

theorem skipSpace_cons (c : Byte) (t : GoString) (h : isSpace c = false) :
    skipSpace (c :: t) = c :: t := by
  rw [skipSpace.eq_2, h]; rfl

theorem storeValue_appendString (f : Field) (s : GoString)
    (rest : GoString) (m : Medicine) :
    storeValue (some f) (appendString s ++ rest) m = (f.set m (toValidUTF8 s), rest) := by
  have hs : scanString (appendStringAux s.length s ++ 0x22 :: rest)
      = (appendStringAux s.length s, rest) :=
    scanString_appendStringAux s.length s (le_refl _) rest
  have hu : unquoteBytes (appendStringAux s.length s) = some (toValidUTF8 s) :=
    unquoteAux_appendStringAux s.length s (le_refl _) _ (le_refl _)
  have he : appendString s ++ rest = 0x22 :: (appendStringAux s.length s ++ 0x22 :: rest) := by
    simp [appendString]
  rw [he, storeValue.eq_def]
  simp only [hs, hu]
  simp [Fin.coe_ofNat_eq_mod]

set_option maxRecDepth 100000 in
theorem Field.name_facts (f : Field) :
    (∀ x ∈ f.name, x.val ≠ 0x22 ∧ x.val ≠ 0x5C) ∧ unquoteBytes f.name = some f.name
      ∧ fieldOf f.name = some f := by
  cases f <;> exact ⟨by decide, by decide, by decide⟩

theorem appendString_head (s : GoString) : ∃ t, appendString s = 0x22 :: t :=
  ⟨appendStringAux s.length s ++ [0x22], by simp [appendString]⟩

/-- One member of an object, followed by a byte that is not white space. -/
theorem object_member (fuel : Nat) (f : Field) (v : GoString)
    (m : Medicine) (d : Byte) (more : GoString) (hd : isSpace d = false) :
    object (fuel + 1) (0x22 :: (f.name ++ 0x22 :: 0x3A :: (appendString v ++ d :: more))) m
      = if d.val = 0x2C then object fuel more (f.set m (toValidUTF8 v))
        else f.set m (toValidUTF8 v) := by
  obtain ⟨hp, hu, hf⟩ := f.name_facts
  obtain ⟨t, ht⟩ := appendString_head v
  have hk : scanString (f.name ++ 0x22 :: 0x3A :: (appendString v ++ d :: more))
      = (f.name, 0x3A :: (appendString v ++ d :: more)) := by
    rw [scanString_plain_append _ _ hp, scanString_quote _ _ rfl]; simp
  have hsp : skipSpace (appendString v ++ d :: more) = appendString v ++ d :: more := by
    rw [ht]; exact skipSpace_cons (0x22 : Byte) _ (by decide)
  rw [object.eq_2, skipSpace_cons (0x22 : Byte) _ (by decide)]
  simp only [hk, hu, skipSpace_cons (0x3A : Byte) _ (by decide), hf, hsp,
    storeValue_appendString f v, skipSpace_cons d more hd]
  simp [Fin.coe_ofNat_eq_mod]

/-! ## `Unmarshal` after `Marshal` -/

set_option maxRecDepth 100000 in
theorem Marshal_eq (m : Medicine) :
    Marshal m = 0x7B :: 0x22 :: (Field.Name.name ++ 0x22 :: 0x3A :: (appendString m.Name ++
      0x2C :: 0x22 :: (Field.Concentration.name ++ 0x22 :: 0x3A :: (appendString m.Concentration ++
      0x2C :: 0x22 :: (Field.Form.name ++ 0x22 :: 0x3A :: (appendString m.Form ++
      0x2C :: 0x22 :: (Field.Expiration.name ++ 0x22 :: 0x3A :: (appendString m.Expiration ++
      0x2C :: 0x22 :: (Field.Quantity.name ++ 0x22 :: 0x3A :: (appendString m.Quantity ++
      0x2C :: 0x22 :: (Field.Code.name ++ 0x22 :: 0x3A :: (appendString m.Code ++
      [0x7D])))))))))))) := by
  have h1 : ascii "\x7b\"name\":" = 0x7B :: 0x22 :: (Field.Name.name ++ [0x22, 0x3A]) := by decide
  have h2 : ascii ",\"concentration\":"
      = 0x2C :: 0x22 :: (Field.Concentration.name ++ [0x22, 0x3A]) := by decide
  have h3 : ascii ",\"form\":" = 0x2C :: 0x22 :: (Field.Form.name ++ [0x22, 0x3A]) := by decide
  have h4 : ascii ",\"expiration\":"
      = 0x2C :: 0x22 :: (Field.Expiration.name ++ [0x22, 0x3A]) := by decide
  have h5 : ascii ",\"quantity\":"
      = 0x2C :: 0x22 :: (Field.Quantity.name ++ [0x22, 0x3A]) := by decide
  have h6 : ascii ",\"code\":" = 0x2C :: 0x22 :: (Field.Code.name ++ [0x22, 0x3A]) := by decide
  have h7 : ascii "\x7d" = [0x7D] := by decide
  unfold Marshal
  rw [h1, h2, h3, h4, h5, h6, h7]
  simp only [List.append_assoc, List.cons_append, List.nil_append]

set_option maxRecDepth 100000 in
/-- The output of `Marshal` is valid JSON, whatever the fields. -/
theorem checkValid_Marshal (m : Medicine) : checkValid (Marshal m) = true := by
  have h1 : scanner.reset.run (ascii "\x7b\"name\":")
      = ⟨Step.stateBeginValue, [ParseState.parseObjectValue]⟩ := by decide
  have h2 : (⟨Step.stateEndValue, [ParseState.parseObjectValue]⟩ : scanner).run
      (ascii ",\"concentration\":") = ⟨Step.stateBeginValue, [ParseState.parseObjectValue]⟩ := by
    decide
  have h3 : (⟨Step.stateEndValue, [ParseState.parseObjectValue]⟩ : scanner).run
      (ascii ",\"form\":") = ⟨Step.stateBeginValue, [ParseState.parseObjectValue]⟩ := by decide
  have h4 : (⟨Step.stateEndValue, [ParseState.parseObjectValue]⟩ : scanner).run
      (ascii ",\"expiration\":") = ⟨Step.stateBeginValue, [ParseState.parseObjectValue]⟩ := by
    decide
  have h5 : (⟨Step.stateEndValue, [ParseState.parseObjectValue]⟩ : scanner).run
      (ascii ",\"quantity\":") = ⟨Step.stateBeginValue, [ParseState.parseObjectValue]⟩ := by decide
  have h6 : (⟨Step.stateEndValue, [ParseState.parseObjectValue]⟩ : scanner).run
      (ascii ",\"code\":") = ⟨Step.stateBeginValue, [ParseState.parseObjectValue]⟩ := by decide
  have h7 : (⟨Step.stateEndValue, [ParseState.parseObjectValue]⟩ : scanner).run
      (ascii "\x7d") = ⟨Step.stateEndTop, []⟩ := by decide
  unfold checkValid Marshal
  simp only [run_append, h1, h2, h3, h4, h5, h6, h7, run_appendString]
  rfl

/-- Decoding what `Marshal` wrote gives the record with every field coerced
to valid UTF-8, whatever the target held. -/
theorem Unmarshal_Marshal_coerced (m v : Medicine) :
    Unmarshal (Marshal m) v = ⟨toValidUTF8 m.Name, toValidUTF8 m.Concentration,
      toValidUTF8 m.Form, toValidUTF8 m.Expiration, toValidUTF8 m.Quantity,
      toValidUTF8 m.Code⟩ := by
  unfold Unmarshal
  rw [checkValid_Marshal m, if_pos rfl, Marshal_eq, skipSpace_cons (0x7B : Byte) _ (by decide)]
  simp only
  rw [if_pos (by decide)]
  generalize hn : List.length _ = n
  obtain ⟨k, rfl⟩ : ∃ k, n = k + 5 := by
    refine ⟨n - 5, ?_⟩
    rw [← hn]; simp; omega
  rw [object_member _ Field.Name _ _ _ _ (by decide), if_pos (by decide),
    object_member _ Field.Concentration _ _ _ _ (by decide), if_pos (by decide),
    object_member _ Field.Form _ _ _ _ (by decide), if_pos (by decide),
    object_member _ Field.Expiration _ _ _ _ (by decide), if_pos (by decide),
    object_member _ Field.Quantity _ _ _ _ (by decide), if_pos (by decide),
    object_member _ Field.Code _ _ _ _ (by decide), if_neg (by decide)]
  rfl

/-- Decoding what `Marshal` wrote for well-formed UTF-8 fields gives the record back. -/
theorem Unmarshal_Marshal (m v : Medicine) (hm : m.ValidUTF8) : Unmarshal (Marshal m) v = m := by
  obtain ⟨v1, v2, v3, v4, v5, v6⟩ := hm
  rw [Unmarshal_Marshal_coerced, toValidUTF8_of_valid _ v1, toValidUTF8_of_valid _ v2,
    toValidUTF8_of_valid _ v3, toValidUTF8_of_valid _ v4, toValidUTF8_of_valid _ v5,
    toValidUTF8_of_valid _ v6]

/-! ## The key order and the current state of a ledger -/

theorem keyLt_irrefl (a : GoString) : keyLt a a = false := by
  induction a with
  | nil => rfl
  | cons x xs ih => simp [keyLt, ih]

theorem keyLt_trans {a b c : GoString} (hab : keyLt a b = true) (hbc : keyLt b c = true) :
    keyLt a c = true := by
  induction a generalizing b c with
  | nil =>
    cases b with
    | nil => simp [keyLt] at hab
    | cons y ys =>
      cases c with
      | nil => simp [keyLt] at hbc
      | cons z zs => simp [keyLt]
  | cons x xs ih =>
    cases b with
    | nil => simp [keyLt] at hab
    | cons y ys =>
      cases c with
      | nil => simp [keyLt] at hbc
      | cons z zs =>
        simp only [keyLt, decide_eq_true_eq] at hab hbc ⊢
        rcases hab with h1 | ⟨h1, h2⟩
        · rcases hbc with h3 | ⟨h3, _⟩
          · left; omega
          · left; omega
        · rcases hbc with h3 | ⟨h3, h4⟩
          · left; omega
          · right; exact ⟨by omega, ih h2 h4⟩

theorem keyLt_total {a b : GoString} (h1 : keyLt a b = false) (h2 : a ≠ b) : keyLt b a = true := by
  induction a generalizing b with
  | nil =>
    cases b with
    | nil => exact absurd rfl h2
    | cons y ys => simp [keyLt] at h1
  | cons x xs ih =>
    cases b with
    | nil => simp [keyLt]
    | cons y ys =>
      simp only [keyLt, decide_eq_false_iff_not, not_or, not_and, decide_eq_true_eq] at h1 ⊢
      by_cases hxy : x.val = y.val
      · right
        have hx : x = y := Fin.ext hxy
        subst hx
        refine ⟨rfl, ih (by simpa using h1.2 rfl) (fun h => h2 (by rw [h]))⟩
      · left; omega

theorem keyLt_asymm {a b : GoString} (h : keyLt a b = true) : keyLt b a = false := by
  cases hba : keyLt b a with
  | false => rfl
  | true => have := keyLt_trans h hba; rw [keyLt_irrefl] at this; cases this

theorem mem_upsert {k v : GoString} {l : List (GoString × GoString)} {x : GoString × GoString} :
    x ∈ upsert k v l → x = (k, v) ∨ x ∈ l := by
  induction l with
  | nil => intro h; simp [upsert] at h; exact Or.inl h
  | cons e rest ih =>
    intro h
    rw [upsert.eq_2] at h
    split_ifs at h with h1 h2
    · simp at h; rcases h with h | h | h
      · exact Or.inl h
      · exact Or.inr (by simp [h])
      · exact Or.inr (by simp [h])
    · simp at h; rcases h with h | h
      · exact Or.inl h
      · exact Or.inr (by simp [h])
    · simp at h; rcases h with h | h
      · exact Or.inr (by simp [h])
      · rcases ih h with h | h
        · exact Or.inl h
        · exact Or.inr (by simp [h])

theorem upsert_ascending (k v : GoString) (l : List (GoString × GoString)) (h : Ascending l) :
    Ascending (upsert k v l) := by
  induction l with
  | nil => simp [upsert, Ascending]
  | cons e rest ih =>
    have hrest : Ascending rest := (List.pairwise_cons.mp h).2
    have he : ∀ x ∈ rest, keyLt e.1 x.1 = true := (List.pairwise_cons.mp h).1
    rw [upsert.eq_2]
    split_ifs with h1 h2
    · refine List.pairwise_cons.mpr ⟨?_, h⟩
      intro x hx
      simp at hx
      rcases hx with rfl | hx
      · exact h1
      · exact keyLt_trans h1 (he x hx)
    · refine List.pairwise_cons.mpr ⟨?_, hrest⟩
      intro x hx
      rw [h2]; exact he x hx
    · refine List.pairwise_cons.mpr ⟨?_, ih hrest⟩
      intro x hx
      rcases mem_upsert hx with rfl | hx
      · exact keyLt_total (by simpa using h1) h2
      · exact he x hx

theorem currentState_ascending (w : List (GoString × GoString)) : Ascending (currentState w) := by
  induction w with
  | nil => simp [currentState, Ascending]
  | cons e rest ih => exact upsert_ascending e.1 e.2 _ ih

theorem currentState_cons (e : GoString × GoString) (w : List (GoString × GoString)) :
    currentState (e :: w) = upsert e.1 e.2 (currentState w) := rfl

/-- On an ascending list, `upsert` leaves exactly one entry under the key: the new one. -/
theorem filter_upsert (k v : GoString) (l : List (GoString × GoString)) (h : Ascending l) :
    (upsert k v l).filter (fun e => e.1 = k) = [(k, v)] := by
  induction l with
  | nil => simp [upsert]
  | cons e rest ih =>
    have hrest : Ascending rest := (List.pairwise_cons.mp h).2
    have he : ∀ x ∈ rest, keyLt e.1 x.1 = true := (List.pairwise_cons.mp h).1
    rw [upsert.eq_2]
    split_ifs with h1 h2
    · have hne : ∀ x ∈ e :: rest, ¬ x.1 = k := by
        intro x hx hxk
        simp at hx
        rcases hx with rfl | hx
        · rw [hxk, keyLt_irrefl] at h1; cases h1
        · have := keyLt_trans h1 (he x hx)
          rw [hxk, keyLt_irrefl] at this; cases this
      rw [List.filter_cons_of_pos (by simp)]
      rw [List.filter_eq_nil_iff.mpr (by simpa using hne)]
    · have hne : ∀ x ∈ rest, ¬ x.1 = k := by
        intro x hx hxk
        have := he x hx
        rw [← h2, hxk, keyLt_irrefl] at this; cases this
      rw [List.filter_cons_of_pos (by simp)]
      rw [List.filter_eq_nil_iff.mpr (by simpa using hne)]
    · rw [List.filter_cons_of_neg (by simpa using fun h => h2 h.symm)]
      exact ih hrest

theorem keys_upsert {k v : GoString} {l : List (GoString × GoString)} {x : GoString} :
    x ∈ (upsert k v l).map Prod.fst → x = k ∨ x ∈ l.map Prod.fst := by
  intro h
  obtain ⟨e, he, rfl⟩ := List.mem_map.mp h
  rcases mem_upsert he with rfl | he
  · exact Or.inl rfl
  · exact Or.inr (List.mem_map_of_mem _ he)

theorem keys_currentState {w : List (GoString × GoString)} {x : GoString} :
    x ∈ (currentState w).map Prod.fst → x ∈ w.map Prod.fst := by
  induction w with
  | nil => simp [currentState]
  | cons e rest ih =>
    intro h
    rw [currentState_cons] at h
    rcases keys_upsert h with rfl | h
    · simp
    · simp only [List.map_cons, List.mem_cons]; exact Or.inr (ih h)

theorem upsert_perm (k v : GoString) (l : List (GoString × GoString))
    (h : k ∉ l.map Prod.fst) : (upsert k v l).Perm ((k, v) :: l) := by
  induction l with
  | nil => simp [upsert]
  | cons e rest ih =>
    rw [upsert.eq_2]
    have hk : k ≠ e.1 := fun hk => h (by simp [hk])
    split_ifs with h1
    · exact List.Perm.refl _
    · exact ((ih (fun hm => h (by simp only [List.map_cons, List.mem_cons]; exact Or.inr hm))).cons e).trans
        (List.Perm.swap _ _ _)

theorem currentState_perm (w : List (GoString × GoString)) (h : (w.map Prod.fst).Nodup) :
    (currentState w).Perm w := by
  induction w with
  | nil => simp [currentState]
  | cons e rest ih =>
    rw [List.map_cons, List.nodup_cons] at h
    rw [currentState_cons]
    exact (upsert_perm e.1 e.2 _ (fun hm => h.1 (keys_currentState hm))).trans ((ih h.2).cons e)

theorem range_all (l : List (GoString × GoString)) :
    l.filter (fun e => !keyLt e.1 [] ∧ (([] : GoString) = [] ∨ keyLt e.1 [])) = l := by
  apply List.filter_eq_self.mpr
  intro e _
  cases h : e.1 <;> simp [keyLt]

theorem iterate_ok (f : Faults) (hn : ∀ i, f.next i = none) (i : Nat)
    (l : List (GoString × GoString)) :
    (iterate f i l).1 = Except.ok (l.map (fun e => ⟨e.1, Unmarshal e.2 newMedicine⟩)) := by
  induction l generalizing i with
  | nil => rfl
  | cons e rest ih =>
    rw [iterate.eq_2, hn i]
    simp only [ih (i + 1)]
    rfl

theorem GetStateByRange_all (s : Stub) (hr : s.faults.getStateByRange = none) :
    GetStateByRange s [] [] = (Except.ok (currentState s.world),
      ⟨s.world, s.faults, s.calls ++ [Call.GetStateByRange [] []]⟩) := by
  unfold GetStateByRange
  rw [hr]
  dsimp only
  rw [range_all]

/-- The result of `QueryAllMedicines` when the scan is served. -/
theorem QueryAllMedicines_ok (s : Stub) (hr : s.faults.getStateByRange = none)
    (hn : ∀ i, s.faults.next i = none) :
    (QueryAllMedicines s).1 = Except.ok
      ((currentState s.world).map (fun e => ⟨e.1, Unmarshal e.2 newMedicine⟩)) := by
  unfold QueryAllMedicines
  rw [GetStateByRange_all s hr]
  exact iterate_ok _ hn 0 _

/-! ## The stub and the error messages -/

theorem PutState_fst (s : Stub) (k v : GoString) : (PutState s k v).1 = s.faults.putState k v := by
  unfold PutState; cases s.faults.putState k v <;> rfl

theorem PutState_ok (s : Stub) (k v : GoString) (h : s.faults.putState k v = none) :
    PutState s k v = (none, ⟨(k, v) :: s.world, s.faults, s.calls ++ [Call.PutState k v]⟩) := by
  unfold PutState; rw [h]

theorem PutState_fail (s : Stub) (k v : GoString) (e : GoError)
    (h : s.faults.putState k v = some e) :
    PutState s k v = (some e, ⟨s.world, s.faults, s.calls ++ [Call.PutState k v]⟩) := by
  unfold PutState; rw [h]

theorem GetState_ok (s : Stub) (k : GoString) (h : s.faults.getState k = none) :
    GetState s k = (Except.ok (s.world.lookup k),
      ⟨s.world, s.faults, s.calls ++ [Call.GetState k]⟩) := by
  unfold GetState; rw [h]

theorem GetState_fail (s : Stub) (k : GoString) (e : GoError) (h : s.faults.getState k = some e) :
    GetState s k = (Except.error e, ⟨s.world, s.faults, s.calls ++ [Call.GetState k]⟩) := by
  unfold GetState; rw [h]

theorem Sprintf_verb (l r a : GoString) (hl : ∀ x ∈ l, x.val ≠ 0x25) :
    Sprintf (l ++ 0x25 :: 0x73 :: r) a = l ++ (a ++ r) := by
  induction l with
  | nil => simp [Sprintf, Fin.coe_ofNat_eq_mod]
  | cons x xs ih =>
    have hx := hl x (by simp)
    have := ih (fun y hy => hl y (by simp [hy]))
    cases xs with
    | nil => simp [Sprintf, hx] at this ⊢; exact this
    | cons y ys => simp [Sprintf, hx] at this ⊢; exact this

set_option maxRecDepth 100000 in
theorem Errorf_put (a : GoString) :
    Errorf "Failed to put to world state. %s" a = ⟨ascii "Failed to put to world state. " ++ a⟩ := by
  have h1 : ascii "Failed to put to world state. %s"
      = ascii "Failed to put to world state. " ++ 0x25 :: 0x73 :: [] := by decide
  unfold Errorf
  rw [h1, Sprintf_verb _ _ _ (by decide), List.append_nil]

set_option maxRecDepth 100000 in
theorem Errorf_read (a : GoString) :
    Errorf "Failed to read from world state. %s" a
      = ⟨ascii "Failed to read from world state. " ++ a⟩ := by
  have h1 : ascii "Failed to read from world state. %s"
      = ascii "Failed to read from world state. " ++ 0x25 :: 0x73 :: [] := by decide
  unfold Errorf
  rw [h1, Sprintf_verb _ _ _ (by decide), List.append_nil]

set_option maxRecDepth 100000 in
theorem Errorf_exist (a : GoString) :
    Errorf "%s does not exist" a = ⟨a ++ ascii " does not exist"⟩ := by
  have h1 : ascii "%s does not exist" = [] ++ 0x25 :: 0x73 :: ascii " does not exist" := by decide
  unfold Errorf
  rw [h1, Sprintf_verb _ _ _ (by simp), List.nil_append]

theorem QueryMedicine_snd (s : Stub) (k : GoString) :
    (QueryMedicine s k).2 = ⟨s.world, s.faults, s.calls ++ [Call.GetState k]⟩ := by
  unfold QueryMedicine GetState
  cases s.faults.getState k with
  | some e => rfl
  | none => cases s.world.lookup k <;> rfl

theorem QueryMedicine_fail (s : Stub) (k : GoString) (e : GoError)
    (h : s.faults.getState k = some e) :
    (QueryMedicine s k).1 = Except.error ⟨ascii "Failed to read from world state. " ++ e.msg⟩ := by
  unfold QueryMedicine
  rw [GetState_fail s k e h]
  simp only [Errorf_read]

theorem QueryMedicine_absent (s : Stub) (k : GoString) (h : s.faults.getState k = none)
    (ha : s.world.lookup k = none) :
    (QueryMedicine s k).1 = Except.error ⟨k ++ ascii " does not exist"⟩ := by
  unfold QueryMedicine
  rw [GetState_ok s k h, ha]
  simp only [Errorf_exist]

theorem QueryMedicine_present (s : Stub) (k v : GoString) (h : s.faults.getState k = none)
    (ha : s.world.lookup k = some v) :
    (QueryMedicine s k).1 = Except.ok (Unmarshal v newMedicine) := by
  unfold QueryMedicine
  rw [GetState_ok s k h, ha]

theorem QueryMedicine_mk_present (w : List (GoString × GoString)) (f : Faults) (c : List Call)
    (k v : GoString) (h : f.getState k = none) (ha : w.lookup k = some v) :
    (QueryMedicine ⟨w, f, c⟩ k).1 = Except.ok (Unmarshal v newMedicine) :=
  QueryMedicine_present ⟨w, f, c⟩ k v h ha

theorem lookup_head (k v : GoString) (w : List (GoString × GoString)) :
    List.lookup k ((k, v) :: w) = some v := by
  simp [List.lookup]

/-! ## Single-record operations: C1, C2, C3, C8, C10 -/

/-- C1 (amended): for every ledger state, key and six field strings that are
well-formed UTF-8, if `CreateMedicine(key, fields)` succeeds then
`QueryMedicine(key)` on the resulting ledger, its ledger read being served,
succeeds and returns a Medicine equal field for field to the inputs. -/
theorem C1_create_then_query (s : Stub)
    (key name concentration form expiration quantity code : GoString)
    (hvalid : (⟨name, concentration, form, expiration, quantity, code⟩ : Medicine).ValidUTF8)
    (hcreate : (CreateMedicine s key name concentration form expiration quantity code).1 = none)
    (hread : s.faults.getState key = none) :
    (QueryMedicine (CreateMedicine s key name concentration form expiration quantity code).2
      key).1 = Except.ok ⟨name, concentration, form, expiration, quantity, code⟩ := by
  unfold CreateMedicine at hcreate ⊢
  rw [PutState_fst] at hcreate
  rw [PutState_ok _ _ _ hcreate]
  dsimp only
  rw [QueryMedicine_mk_present _ _ _ key _ hread (lookup_head _ _ _),
    Unmarshal_Marshal _ _ hvalid]

set_option maxRecDepth 1000000 in
/-- C1, witness: a record of plain text and of multi-byte UTF-8 text, created
on the empty ledger, is read back as it was given. -/
theorem C1_create_then_query_witness :
    (⟨ascii "Paracetamol <500>", [0xC3, 0xA9, 0xE2, 0x80, 0xA8], ascii "Tableta",
        ascii "31/12/2025", ascii "40", ascii "\"7\\"⟩ : Medicine).ValidUTF8 ∧
    (CreateMedicine (healthy []) (ascii "MEDICINE7") (ascii "Paracetamol <500>")
        [0xC3, 0xA9, 0xE2, 0x80, 0xA8] (ascii "Tableta") (ascii "31/12/2025") (ascii "40")
        (ascii "\"7\\")).1 = none ∧
    (QueryMedicine (CreateMedicine (healthy []) (ascii "MEDICINE7") (ascii "Paracetamol <500>")
        [0xC3, 0xA9, 0xE2, 0x80, 0xA8] (ascii "Tableta") (ascii "31/12/2025") (ascii "40")
        (ascii "\"7\\")).2 (ascii "MEDICINE7")).1
      = Except.ok ⟨ascii "Paracetamol <500>", [0xC3, 0xA9, 0xE2, 0x80, 0xA8], ascii "Tableta",
          ascii "31/12/2025", ascii "40", ascii "\"7\\"⟩ :=
  ⟨by unfold Medicine.ValidUTF8; decide, rfl,
    C1_create_then_query (healthy []) _ _ _ _ _ _ _ (by unfold Medicine.ValidUTF8; decide) rfl rfl⟩

set_option maxRecDepth 1000000 in
/-- C1, counterexample: the one-byte name `"\xff"` is not UTF-8; `CreateMedicine`
succeeds and `QueryMedicine` returns the name U+FFFD (bytes EF BF BD) instead. -/
theorem C1_counterexample :
    (CreateMedicine (healthy []) (ascii "MEDICINE7") [0xFF] (ascii "500mg") (ascii "Tableta")
        (ascii "31/12/2025") (ascii "40") (ascii "7654321")).1 = none ∧
    (QueryMedicine (CreateMedicine (healthy []) (ascii "MEDICINE7") [0xFF] (ascii "500mg")
        (ascii "Tableta") (ascii "31/12/2025") (ascii "40") (ascii "7654321")).2
        (ascii "MEDICINE7")).1
      = Except.ok ⟨[0xEF, 0xBF, 0xBD], ascii "500mg", ascii "Tableta", ascii "31/12/2025",
          ascii "40", ascii "7654321"⟩ ∧
    (QueryMedicine (CreateMedicine (healthy []) (ascii "MEDICINE7") [0xFF] (ascii "500mg")
        (ascii "Tableta") (ascii "31/12/2025") (ascii "40") (ascii "7654321")).2
        (ascii "MEDICINE7")).1
      ≠ Except.ok ⟨[0xFF], ascii "500mg", ascii "Tableta", ascii "31/12/2025",
          ascii "40", ascii "7654321"⟩ := by
  decide

theorem ChangeMedicineQuantity_of_error (s : Stub) (k q : GoString) (err : GoError)
    (h : (QueryMedicine s k).1 = Except.error err) :
    ChangeMedicineQuantity s k q = (some err, ⟨s.world, s.faults, s.calls ++ [Call.GetState k]⟩) := by
  have h2 := QueryMedicine_snd s k
  unfold ChangeMedicineQuantity
  rcases hq : QueryMedicine s k with ⟨r, s1⟩
  rw [hq] at h h2
  simp only at h h2
  subst h h2
  rfl

theorem ChangeMedicineQuantity_of_ok (s : Stub) (k q : GoString) (m : Medicine)
    (h : (QueryMedicine s k).1 = Except.ok m) :
    ChangeMedicineQuantity s k q = PutState ⟨s.world, s.faults, s.calls ++ [Call.GetState k]⟩ k
      (Marshal ⟨m.Name, m.Concentration, m.Form, m.Expiration, q, m.Code⟩) := by
  have h2 := QueryMedicine_snd s k
  unfold ChangeMedicineQuantity
  rcases hq : QueryMedicine s k with ⟨r, s1⟩
  rw [hq] at h h2
  simp only at h h2
  subst h h2
  rfl

/-- C3 (amended): for every ledger state and every key whose ledger read
succeeds and returns no bytes, `QueryMedicine(key)` fails with the not-found
error `"<key> does not exist"`: it returns no Medicine record and writes
nothing; and that error is a storage-failure error
`"Failed to read from world state. ..."` exactly when the text
`"<key> does not exist"` itself begins with `"Failed to read from world state. "`. -/
theorem C3_query_absent (s : Stub) (key : GoString)
    (habsent : (GetState s key).1 = Except.ok none) :
    (QueryMedicine s key).1 = Except.error ⟨key ++ ascii " does not exist"⟩ ∧
    (∀ m, (QueryMedicine s key).1 ≠ Except.ok m) ∧
    (QueryMedicine s key).2.world = s.world ∧
    ((∃ e : GoError, (QueryMedicine s key).1
        = Except.error (Errorf "Failed to read from world state. %s" e.msg)) ↔
      (key ++ ascii " does not exist").take (ascii "Failed to read from world state. ").length
        = ascii "Failed to read from world state. ") := by
  have hq : (QueryMedicine s key).1 = Except.error ⟨key ++ ascii " does not exist"⟩ := by
    unfold GetState at habsent
    cases hf : s.faults.getState key with
    | some e => rw [hf] at habsent; cases habsent
    | none =>
      rw [hf] at habsent
      simp only [Except.ok.injEq] at habsent
      exact QueryMedicine_absent s key hf habsent
  refine ⟨hq, ?_, ?_, ?_⟩
  · intro m hm; rw [hq] at hm; cases hm
  · rw [QueryMedicine_snd]
  · rw [hq]
    constructor
    · rintro ⟨e, he⟩
      rw [Errorf_read] at he
      simp only [Except.error.injEq, GoError.mk.injEq] at he
      rw [he]
      exact List.take_left' rfl
    · intro ht
      refine ⟨⟨(key ++ ascii " does not exist").drop
        (ascii "Failed to read from world state. ").length⟩, ?_⟩
      rw [Errorf_read]
      simp only [Except.error.injEq, GoError.mk.injEq]
      have hsplit := List.take_append_drop (ascii "Failed to read from world state. ").length
        (key ++ ascii " does not exist")
      rw [ht] at hsplit
      exact hsplit.symm

set_option maxRecDepth 1000000 in
/-- C3, witness: on the seeded ledger the key `"MEDICINE2"` was never written;
the error is the not-found one and no storage-failure error equals it. -/
theorem C3_query_absent_witness :
    (GetState (InitLedger (healthy [])).2 (ascii "MEDICINE2")).1 = Except.ok none ∧
    (QueryMedicine (InitLedger (healthy [])).2 (ascii "MEDICINE2")).1
      = Except.error ⟨ascii "MEDICINE2 does not exist"⟩ ∧
    ¬ ∃ e : GoError, (QueryMedicine (InitLedger (healthy [])).2 (ascii "MEDICINE2")).1
      = Except.error (Errorf "Failed to read from world state. %s" e.msg) :=
  ⟨by decide, (C3_query_absent (InitLedger (healthy [])).2 (ascii "MEDICINE2") (by decide)).1,
    fun h => absurd ((C3_query_absent (InitLedger (healthy [])).2 (ascii "MEDICINE2")
      (by decide)).2.2.2.mp h) (by decide)⟩

set_option maxRecDepth 1000000 in
/-- C3, counterexample: the unwritten key `"Failed to read from world state. x"`;
the read succeeds with no bytes and the not-found error `QueryMedicine` returns
is the storage-failure error for the read error `"x does not exist"`. -/
theorem C3_counterexample :
    (GetState (healthy []) (ascii "Failed to read from world state. x")).1 = Except.ok none ∧
    (QueryMedicine (healthy []) (ascii "Failed to read from world state. x")).1
      = Except.error (Errorf "Failed to read from world state. %s" (ascii "x does not exist")) := by
  decide

/-- C8: for every ledger state, key and new quantity, if `QueryMedicine(key)`
fails then `ChangeMedicineQuantity(key, newQuantity)` returns exactly that
error and performs no ledger write: the only call made is the read, the ledger
is unchanged, and a key that had no record still has none. -/
theorem C8_change_propagates_query_error (s : Stub) (key newQuantity : GoString) (err : GoError)
    (hfail : (QueryMedicine s key).1 = Except.error err) :
    (ChangeMedicineQuantity s key newQuantity).1 = some err ∧
    (ChangeMedicineQuantity s key newQuantity).2.world = s.world ∧
    (ChangeMedicineQuantity s key newQuantity).2.calls = s.calls ++ [Call.GetState key] ∧
    (s.world.lookup key = none →
      (ChangeMedicineQuantity s key newQuantity).2.world.lookup key = none) := by
  rw [ChangeMedicineQuantity_of_error s key newQuantity err hfail]
  exact ⟨rfl, rfl, rfl, fun h => h⟩

set_option maxRecDepth 1000000 in
/-- C8, witness: changing the quantity of the unwritten key `"MEDICINE2"` on
the seeded ledger returns the not-found error and leaves the ledger as it was. -/
theorem C8_change_propagates_query_error_witness :
    (QueryMedicine (InitLedger (healthy [])).2 (ascii "MEDICINE2")).1
      = Except.error ⟨ascii "MEDICINE2 does not exist"⟩ ∧
    (ChangeMedicineQuantity (InitLedger (healthy [])).2 (ascii "MEDICINE2") (ascii "50")).1
      = some ⟨ascii "MEDICINE2 does not exist"⟩ ∧
    (ChangeMedicineQuantity (InitLedger (healthy [])).2 (ascii "MEDICINE2") (ascii "50")).2.world
      = (InitLedger (healthy [])).2.world :=
  ⟨by decide,
    (C8_change_propagates_query_error (InitLedger (healthy [])).2 (ascii "MEDICINE2")
      (ascii "50") ⟨ascii "MEDICINE2 does not exist"⟩ (by decide)).1,
    (C8_change_propagates_query_error (InitLedger (healthy [])).2 (ascii "MEDICINE2")
      (ascii "50") ⟨ascii "MEDICINE2 does not exist"⟩ (by decide)).2.1⟩

/-- C10: deserialization failures are swallowed on the single-record read
path: for every key whose ledger read succeeds and returns stored bytes,
`QueryMedicine(key)` returns a Medicine record and no error, whatever the bytes
are; when they are not valid JSON the record is the zero-valued one. -/
theorem C10_decode_errors_swallowed (s : Stub) (key bytes : GoString)
    (hread : (GetState s key).1 = Except.ok (some bytes)) :
    (QueryMedicine s key).1 = Except.ok (Unmarshal bytes newMedicine) ∧
    (checkValid bytes = false → (QueryMedicine s key).1 = Except.ok newMedicine) := by
  have hq : (QueryMedicine s key).1 = Except.ok (Unmarshal bytes newMedicine) := by
    unfold GetState at hread
    cases hf : s.faults.getState key with
    | some e => rw [hf] at hread; cases hread
    | none =>
      rw [hf] at hread
      simp only [Except.ok.injEq] at hread
      exact QueryMedicine_present s key bytes hf hread
  refine ⟨hq, fun hbad => ?_⟩
  rw [hq]
  unfold Unmarshal
  rw [hbad]
  rfl

set_option maxRecDepth 1000000 in
/-- C10, witness: the bytes `not json` stored under a key are read back as
the zero-valued record, without an error. -/
theorem C10_decode_errors_swallowed_witness :
    (GetState (healthy [(ascii "MEDICINE5", ascii "not json")]) (ascii "MEDICINE5")).1
      = Except.ok (some (ascii "not json")) ∧
    checkValid (ascii "not json") = false ∧
    (QueryMedicine (healthy [(ascii "MEDICINE5", ascii "not json")]) (ascii "MEDICINE5")).1
      = Except.ok ⟨[], [], [], [], [], []⟩ :=
  ⟨by decide, by decide,
    (C10_decode_errors_swallowed (healthy [(ascii "MEDICINE5", ascii "not json")])
      (ascii "MEDICINE5") (ascii "not json") (by decide)).2 (by decide)⟩

/-! ## `InitLedger` and failures of the ledger: C4, C7, C9 -/

theorem PutState_mk_ok (w : List (GoString × GoString)) (f : Faults) (c : List Call)
    (k v : GoString) (h : f.putState k v = none) :
    PutState ⟨w, f, c⟩ k v = (none, ⟨(k, v) :: w, f, c ++ [Call.PutState k v]⟩) :=
  PutState_ok ⟨w, f, c⟩ k v h

theorem PutState_mk_fail (w : List (GoString × GoString)) (f : Faults) (c : List Call)
    (k v : GoString) (e : GoError) (h : f.putState k v = some e) :
    PutState ⟨w, f, c⟩ k v = (some e, ⟨w, f, c ++ [Call.PutState k v]⟩) :=
  PutState_fail ⟨w, f, c⟩ k v e h

/-- The stub after the two writes of `InitLedger` were accepted. -/
theorem InitLedger_ok (s : Stub)
    (h0 : s.faults.putState (ascii "MEDICINE0") (Marshal ⟨ascii "Amoxicilina", ascii "250mg/5ml",
      ascii "Jarabe", ascii "31/12/2023", ascii "100", ascii "1234567"⟩) = none)
    (h1 : s.faults.putState (ascii "MEDICINE1") (Marshal ⟨ascii "Ibuprofeno", ascii "400mg",
      ascii "Tableta", ascii "31/12/2024", ascii "100", ascii "1234567"⟩) = none) :
    (InitLedger s).1 = none ∧
    (InitLedger s).2.world =
      (ascii "MEDICINE1", Marshal ⟨ascii "Ibuprofeno", ascii "400mg", ascii "Tableta",
        ascii "31/12/2024", ascii "100", ascii "1234567"⟩) ::
      (ascii "MEDICINE0", Marshal ⟨ascii "Amoxicilina", ascii "250mg/5ml", ascii "Jarabe",
        ascii "31/12/2023", ascii "100", ascii "1234567"⟩) :: s.world ∧
    (InitLedger s).2.faults = s.faults := by
  have k0 : ascii "MEDICINE" ++ Itoa 0 = ascii "MEDICINE0" := by decide
  have k1 : ascii "MEDICINE" ++ Itoa (0 + 1) = ascii "MEDICINE1" := by decide
  unfold InitLedger medicines
  rw [initLoop.eq_2, k0, PutState_ok _ _ _ h0]
  dsimp only
  rw [initLoop.eq_2, k1, PutState_mk_ok _ _ _ _ _ h1]
  dsimp only
  rw [initLoop.eq_1]
  exact ⟨rfl, rfl, rfl⟩

/-- The first write of `InitLedger` is rejected: nothing else is attempted. -/
theorem InitLedger_fail0 (s : Stub) (e : GoError)
    (h0 : s.faults.putState (ascii "MEDICINE0") (Marshal ⟨ascii "Amoxicilina", ascii "250mg/5ml",
      ascii "Jarabe", ascii "31/12/2023", ascii "100", ascii "1234567"⟩) = some e) :
    InitLedger s = (some ⟨ascii "Failed to put to world state. " ++ e.msg⟩,
      ⟨s.world, s.faults, s.calls ++ [Call.PutState (ascii "MEDICINE0")
        (Marshal ⟨ascii "Amoxicilina", ascii "250mg/5ml", ascii "Jarabe", ascii "31/12/2023",
          ascii "100", ascii "1234567"⟩)]⟩) := by
  have k0 : ascii "MEDICINE" ++ Itoa 0 = ascii "MEDICINE0" := by decide
  unfold InitLedger medicines
  rw [initLoop.eq_2, k0, PutState_fail _ _ _ e h0]
  dsimp only
  rw [Errorf_put]

/-- The second write of `InitLedger` is rejected: the first one stays. -/
theorem InitLedger_fail1 (s : Stub) (e : GoError)
    (h0 : s.faults.putState (ascii "MEDICINE0") (Marshal ⟨ascii "Amoxicilina", ascii "250mg/5ml",
      ascii "Jarabe", ascii "31/12/2023", ascii "100", ascii "1234567"⟩) = none)
    (h1 : s.faults.putState (ascii "MEDICINE1") (Marshal ⟨ascii "Ibuprofeno", ascii "400mg",
      ascii "Tableta", ascii "31/12/2024", ascii "100", ascii "1234567"⟩) = some e) :
    (InitLedger s).1 = some ⟨ascii "Failed to put to world state. " ++ e.msg⟩ ∧
    (InitLedger s).2.world =
      (ascii "MEDICINE0", Marshal ⟨ascii "Amoxicilina", ascii "250mg/5ml", ascii "Jarabe",
        ascii "31/12/2023", ascii "100", ascii "1234567"⟩) :: s.world ∧
    (InitLedger s).2.faults = s.faults := by
  have k0 : ascii "MEDICINE" ++ Itoa 0 = ascii "MEDICINE0" := by decide
  have k1 : ascii "MEDICINE" ++ Itoa (0 + 1) = ascii "MEDICINE1" := by decide
  unfold InitLedger medicines
  rw [initLoop.eq_2, k0, PutState_ok _ _ _ h0]
  dsimp only
  rw [initLoop.eq_2, k1, PutState_mk_fail _ _ _ _ _ e h1]
  dsimp only
  rw [Errorf_put]
  exact ⟨rfl, rfl, rfl⟩

set_option maxRecDepth 1000000 in
theorem seed_valid :
    (⟨ascii "Amoxicilina", ascii "250mg/5ml", ascii "Jarabe", ascii "31/12/2023", ascii "100",
      ascii "1234567"⟩ : Medicine).ValidUTF8 ∧
    (⟨ascii "Ibuprofeno", ascii "400mg", ascii "Tableta", ascii "31/12/2024", ascii "100",
      ascii "1234567"⟩ : Medicine).ValidUTF8 := by
  unfold Medicine.ValidUTF8; decide

theorem lookup_second (k k2 v v2 : GoString) (w : List (GoString × GoString)) (h : k ≠ k2) :
    List.lookup k ((k2, v2) :: (k, v) :: w) = some v := by
  have hb : (k == k2) = false := by simpa using h
  simp [List.lookup, hb]

theorem QueryMedicine_world (s : Stub) (w : List (GoString × GoString)) (k v : GoString)
    (hw : s.world = w) (h : s.faults.getState k = none) (ha : w.lookup k = some v) :
    (QueryMedicine s k).1 = Except.ok (Unmarshal v newMedicine) :=
  QueryMedicine_present s k v h (by rw [hw]; exact ha)

set_option maxRecDepth 1000000 in
/-- C4 (amended): running `InitLedger` on an empty ledger whose two writes
succeed returns no error and leaves a ledger holding exactly the two keys
`"MEDICINE0"` and `"MEDICINE1"`; `QueryMedicine("MEDICINE0")`, when its ledger
read is served, then returns the Amoxicilina record, and
`QueryMedicine("MEDICINE1")`, when its ledger read is served, the Ibuprofeno
record. -/
theorem C4_init_ledger (s : Stub) (hempty : s.world = [])
    (hput0 : s.faults.putState (ascii "MEDICINE0") (Marshal ⟨ascii "Amoxicilina",
      ascii "250mg/5ml", ascii "Jarabe", ascii "31/12/2023", ascii "100", ascii "1234567"⟩)
        = none)
    (hput1 : s.faults.putState (ascii "MEDICINE1") (Marshal ⟨ascii "Ibuprofeno",
      ascii "400mg", ascii "Tableta", ascii "31/12/2024", ascii "100", ascii "1234567"⟩)
        = none) :
    (InitLedger s).1 = none ∧
    (currentState (InitLedger s).2.world).map Prod.fst = [ascii "MEDICINE0", ascii "MEDICINE1"] ∧
    (s.faults.getState (ascii "MEDICINE0") = none →
      (QueryMedicine (InitLedger s).2 (ascii "MEDICINE0")).1 = Except.ok ⟨ascii "Amoxicilina",
        ascii "250mg/5ml", ascii "Jarabe", ascii "31/12/2023", ascii "100", ascii "1234567"⟩) ∧
    (s.faults.getState (ascii "MEDICINE1") = none →
      (QueryMedicine (InitLedger s).2 (ascii "MEDICINE1")).1 = Except.ok ⟨ascii "Ibuprofeno",
        ascii "400mg", ascii "Tableta", ascii "31/12/2024", ascii "100", ascii "1234567"⟩) := by
  obtain ⟨h1, h2, h3⟩ := InitLedger_ok s hput0 hput1
  rw [hempty] at h2
  refine ⟨h1, ?_, ?_, ?_⟩
  · rw [h2]; decide
  · intro hget
    rw [QueryMedicine_world _ _ (ascii "MEDICINE0") _ h2 (by rw [h3]; exact hget)
        (lookup_second _ _ _ _ _ (by decide)), Unmarshal_Marshal _ _ seed_valid.1]
  · intro hget
    rw [QueryMedicine_world _ _ (ascii "MEDICINE1") _ h2 (by rw [h3]; exact hget)
        (lookup_head _ _ _), Unmarshal_Marshal _ _ seed_valid.2]

/-- C4, witness: an empty ledger whose stub rejects the empty key and serves
every other call. -/
theorem C4_init_ledger_witness :
    (InitLedger ⟨[], ⟨fun _ => none,
      fun k _ => if k = [] then some ⟨ascii "empty key"⟩ else none, none, fun _ => none⟩,
      []⟩).1 = none ∧
    (currentState (InitLedger ⟨[], ⟨fun _ => none,
      fun k _ => if k = [] then some ⟨ascii "empty key"⟩ else none, none, fun _ => none⟩,
      []⟩).2.world).map Prod.fst = [ascii "MEDICINE0", ascii "MEDICINE1"] ∧
    (QueryMedicine (InitLedger ⟨[], ⟨fun _ => none,
      fun k _ => if k = [] then some ⟨ascii "empty key"⟩ else none, none, fun _ => none⟩,
      []⟩).2 (ascii "MEDICINE0")).1 = Except.ok ⟨ascii "Amoxicilina", ascii "250mg/5ml",
        ascii "Jarabe", ascii "31/12/2023", ascii "100", ascii "1234567"⟩ ∧
    (QueryMedicine (InitLedger ⟨[], ⟨fun _ => none,
      fun k _ => if k = [] then some ⟨ascii "empty key"⟩ else none, none, fun _ => none⟩,
      []⟩).2 (ascii "MEDICINE1")).1 = Except.ok ⟨ascii "Ibuprofeno", ascii "400mg",
        ascii "Tableta", ascii "31/12/2024", ascii "100", ascii "1234567"⟩ :=
  ⟨(C4_init_ledger ⟨[], ⟨fun _ => none,
      fun k _ => if k = [] then some ⟨ascii "empty key"⟩ else none, none, fun _ => none⟩,
      []⟩ rfl rfl rfl).1,
   (C4_init_ledger ⟨[], ⟨fun _ => none,
      fun k _ => if k = [] then some ⟨ascii "empty key"⟩ else none, none, fun _ => none⟩,
      []⟩ rfl rfl rfl).2.1,
   (C4_init_ledger ⟨[], ⟨fun _ => none,
      fun k _ => if k = [] then some ⟨ascii "empty key"⟩ else none, none, fun _ => none⟩,
      []⟩ rfl rfl rfl).2.2.1 rfl,
   (C4_init_ledger ⟨[], ⟨fun _ => none,
      fun k _ => if k = [] then some ⟨ascii "empty key"⟩ else none, none, fun _ => none⟩,
      []⟩ rfl rfl rfl).2.2.2 rfl⟩

set_option maxRecDepth 1000000 in
/-- C4, counterexample: an empty ledger whose writes succeed and whose reads
fail with `boom`; `InitLedger` returns no error and `QueryMedicine("MEDICINE0")`
returns the wrapped read error, not the Amoxicilina record. -/
theorem C4_counterexample :
    (InitLedger ⟨[], ⟨fun _ => some ⟨ascii "boom"⟩, fun _ _ => none, none, fun _ => none⟩,
      []⟩).1 = none ∧
    (QueryMedicine (InitLedger ⟨[], ⟨fun _ => some ⟨ascii "boom"⟩, fun _ _ => none, none,
      fun _ => none⟩, []⟩).2 (ascii "MEDICINE0")).1
      = Except.error ⟨ascii "Failed to read from world state. boom"⟩ := by
  decide

theorem iterate_fail (f : Faults) (e : GoError) (l : List (GoString × GoString)) :
    ∀ (i0 i : Nat), i < l.length → (∀ j, j < i → f.next (i0 + j) = none) →
      f.next (i0 + i) = some e → (iterate f i0 l).1 = Except.error e := by
  induction l with
  | nil => intro i0 i hi; simp at hi
  | cons x rest ih =>
    intro i0 i hi hbefore hat
    cases i with
    | zero =>
      rw [iterate.eq_2, show f.next i0 = some e from by simpa using hat]
    | succ i =>
      have h0 : f.next i0 = none := by simpa using hbefore 0 (by omega)
      rw [iterate.eq_2, h0]
      dsimp only
      rw [ih (i0 + 1) i (by simpa using hi)
        (fun j hj => by have := hbefore (j + 1) (by omega); rwa [show i0 + 1 + j = i0 + (j + 1) from by omega])
        (by rwa [show i0 + 1 + i = i0 + (i + 1) from by omega])]
      rfl

/-- C7 (amended): every operation returns an error when the get, put or
range-scan call it makes fails with error `e`.  `CreateMedicine`,
`QueryAllMedicines` (for the scan and for a `Next()` of its iterator) and the
write of `ChangeMedicineQuantity` return `e` itself; `QueryMedicine`, and
`ChangeMedicineQuantity` through it, return a new error with the message
`"Failed to read from world state. "` followed by the message of `e`;
`InitLedger` returns a new error with the message
`"Failed to put to world state. "` followed by the message of `e`. -/
theorem C7_dependency_failures (s : Stub) (e : GoError) :
    (∀ key name concentration form expiration quantity code,
      s.faults.putState key (Marshal ⟨name, concentration, form, expiration, quantity, code⟩)
        = some e →
      (CreateMedicine s key name concentration form expiration quantity code).1 = some e) ∧
    (s.faults.getStateByRange = some e → (QueryAllMedicines s).1 = Except.error e) ∧
    (∀ i, s.faults.getStateByRange = none → i < (currentState s.world).length →
      (∀ j, j < i → s.faults.next j = none) → s.faults.next i = some e →
      (QueryAllMedicines s).1 = Except.error e) ∧
    (∀ key newQuantity medicine, (QueryMedicine s key).1 = Except.ok medicine →
      s.faults.putState key (Marshal ⟨medicine.Name, medicine.Concentration, medicine.Form,
        medicine.Expiration, newQuantity, medicine.Code⟩) = some e →
      (ChangeMedicineQuantity s key newQuantity).1 = some e) ∧
    (∀ key, s.faults.getState key = some e →
      (QueryMedicine s key).1
        = Except.error ⟨ascii "Failed to read from world state. " ++ e.msg⟩) ∧
    (∀ key newQuantity, s.faults.getState key = some e →
      (ChangeMedicineQuantity s key newQuantity).1
        = some ⟨ascii "Failed to read from world state. " ++ e.msg⟩) ∧
    (s.faults.putState (ascii "MEDICINE0") (Marshal ⟨ascii "Amoxicilina", ascii "250mg/5ml",
        ascii "Jarabe", ascii "31/12/2023", ascii "100", ascii "1234567"⟩) = some e →
      (InitLedger s).1 = some ⟨ascii "Failed to put to world state. " ++ e.msg⟩) ∧
    (s.faults.putState (ascii "MEDICINE0") (Marshal ⟨ascii "Amoxicilina", ascii "250mg/5ml",
        ascii "Jarabe", ascii "31/12/2023", ascii "100", ascii "1234567"⟩) = none →
      s.faults.putState (ascii "MEDICINE1") (Marshal ⟨ascii "Ibuprofeno", ascii "400mg",
        ascii "Tableta", ascii "31/12/2024", ascii "100", ascii "1234567"⟩) = some e →
      (InitLedger s).1 = some ⟨ascii "Failed to put to world state. " ++ e.msg⟩) := by
  refine ⟨?_, ?_, ?_, ?_, ?_, ?_, ?_, ?_⟩
  · intro key name concentration form expiration quantity code h
    unfold CreateMedicine
    rw [PutState_fst, h]
  · intro h
    unfold QueryAllMedicines GetStateByRange
    rw [h]
  · intro i hr hi hbefore hat
    unfold QueryAllMedicines
    rw [GetStateByRange_all s hr]
    exact iterate_fail _ e _ 0 i hi (fun j hj => by simpa using hbefore j hj) (by simpa using hat)
  · intro key newQuantity medicine hq hp
    rw [ChangeMedicineQuantity_of_ok s key newQuantity medicine hq, PutState_fst]
    exact hp
  · intro key h
    exact QueryMedicine_fail s key e h
  · intro key newQuantity h
    rw [ChangeMedicineQuantity_of_error s key newQuantity _ (QueryMedicine_fail s key e h)]
  · intro h
    rw [InitLedger_fail0 s e h]
  · intro h0 h1
    exact (InitLedger_fail1 s e h0 h1).1

set_option maxRecDepth 1000000 in
/-- C7, witness: on a stub whose reads fail with `boom`, `QueryMedicine` and
`ChangeMedicineQuantity` return the wrapped error; on a stub whose puts fail
with `boom`, `CreateMedicine` returns `boom` itself. -/
theorem C7_dependency_failures_witness :
    (QueryMedicine ⟨[], ⟨fun _ => some ⟨ascii "boom"⟩, fun _ _ => none, none, fun _ => none⟩,
      []⟩ (ascii "MEDICINE0")).1
      = Except.error ⟨ascii "Failed to read from world state. " ++ ascii "boom"⟩ ∧
    (ChangeMedicineQuantity ⟨[], ⟨fun _ => some ⟨ascii "boom"⟩, fun _ _ => none, none,
      fun _ => none⟩, []⟩ (ascii "MEDICINE0") (ascii "50")).1
      = some ⟨ascii "Failed to read from world state. " ++ ascii "boom"⟩ ∧
    (CreateMedicine ⟨[], ⟨fun _ => none, fun _ _ => some ⟨ascii "boom"⟩, none, fun _ => none⟩,
      []⟩ (ascii "MEDICINE7") (ascii "Paracetamol") (ascii "500mg") (ascii "Tableta")
      (ascii "31/12/2025") (ascii "40") (ascii "7654321")).1 = some ⟨ascii "boom"⟩ :=
  ⟨(C7_dependency_failures ⟨[], ⟨fun _ => some ⟨ascii "boom"⟩, fun _ _ => none, none,
      fun _ => none⟩, []⟩ ⟨ascii "boom"⟩).2.2.2.2.1 (ascii "MEDICINE0") rfl,
   (C7_dependency_failures ⟨[], ⟨fun _ => some ⟨ascii "boom"⟩, fun _ _ => none, none,
      fun _ => none⟩, []⟩ ⟨ascii "boom"⟩).2.2.2.2.2.1 (ascii "MEDICINE0") (ascii "50") rfl,
   (C7_dependency_failures ⟨[], ⟨fun _ => none, fun _ _ => some ⟨ascii "boom"⟩, none,
      fun _ => none⟩, []⟩ ⟨ascii "boom"⟩).1 _ _ _ _ _ _ _ rfl⟩

set_option maxRecDepth 1000000 in
/-- C7, counterexample: every put fails with the error `boom`; `InitLedger`
returns an error whose message is `Failed to put to world state. boom`, which
is not the error `boom` of the put. -/
theorem C7_counterexample :
    (PutState ⟨[], ⟨fun _ => none, fun _ _ => some ⟨ascii "boom"⟩, none, fun _ => none⟩, []⟩
      (ascii "MEDICINE0") (Marshal ⟨ascii "Amoxicilina", ascii "250mg/5ml", ascii "Jarabe",
        ascii "31/12/2023", ascii "100", ascii "1234567"⟩)).1 = some ⟨ascii "boom"⟩ ∧
    (InitLedger ⟨[], ⟨fun _ => none, fun _ _ => some ⟨ascii "boom"⟩, none, fun _ => none⟩,
      []⟩).1 = some ⟨ascii "Failed to put to world state. boom"⟩ ∧
    (InitLedger ⟨[], ⟨fun _ => none, fun _ _ => some ⟨ascii "boom"⟩, none, fun _ => none⟩,
      []⟩).1 ≠ some ⟨ascii "boom"⟩ := by
  decide

/-- C9: a ledger write that fails during `InitLedger` makes it return an
error and stop, and earlier writes are not rolled back.  When the write of
`"MEDICINE0"` succeeds and the write of `"MEDICINE1"` fails, `InitLedger`
returns an error and the ledger holds the Amoxicilina seed record under
`"MEDICINE0"`; when the write of `"MEDICINE0"` fails, `InitLedger` returns an
error and that write is the only call it made. -/
theorem C9_init_ledger_stops (s : Stub) (e : GoError) :
    (s.faults.putState (ascii "MEDICINE0") (Marshal ⟨ascii "Amoxicilina", ascii "250mg/5ml",
        ascii "Jarabe", ascii "31/12/2023", ascii "100", ascii "1234567"⟩) = none →
      s.faults.putState (ascii "MEDICINE1") (Marshal ⟨ascii "Ibuprofeno", ascii "400mg",
        ascii "Tableta", ascii "31/12/2024", ascii "100", ascii "1234567"⟩) = some e →
      (InitLedger s).1 = some ⟨ascii "Failed to put to world state. " ++ e.msg⟩ ∧
      (InitLedger s).2.world.lookup (ascii "MEDICINE0") = some (Marshal ⟨ascii "Amoxicilina",
        ascii "250mg/5ml", ascii "Jarabe", ascii "31/12/2023", ascii "100", ascii "1234567"⟩) ∧
      (s.faults.getState (ascii "MEDICINE0") = none →
        (QueryMedicine (InitLedger s).2 (ascii "MEDICINE0")).1 = Except.ok ⟨ascii "Amoxicilina",
          ascii "250mg/5ml", ascii "Jarabe", ascii "31/12/2023", ascii "100",
          ascii "1234567"⟩)) ∧
    (s.faults.putState (ascii "MEDICINE0") (Marshal ⟨ascii "Amoxicilina", ascii "250mg/5ml",
        ascii "Jarabe", ascii "31/12/2023", ascii "100", ascii "1234567"⟩) = some e →
      (InitLedger s).1 = some ⟨ascii "Failed to put to world state. " ++ e.msg⟩ ∧
      (InitLedger s).2.calls = s.calls ++ [Call.PutState (ascii "MEDICINE0")
        (Marshal ⟨ascii "Amoxicilina", ascii "250mg/5ml", ascii "Jarabe", ascii "31/12/2023",
          ascii "100", ascii "1234567"⟩)] ∧
      (InitLedger s).2.world = s.world) := by
  constructor
  · intro h0 h1
    obtain ⟨hr, hw, hf⟩ := InitLedger_fail1 s e h0 h1
    refine ⟨hr, by rw [hw]; exact lookup_head _ _ _, fun hg => ?_⟩
    rw [QueryMedicine_world _ _ (ascii "MEDICINE0") _ hw (by rw [hf]; exact hg)
      (lookup_head _ _ _), Unmarshal_Marshal _ _ seed_valid.1]
  · intro h0
    rw [InitLedger_fail0 s e h0]
    exact ⟨rfl, rfl, rfl⟩

set_option maxRecDepth 1000000 in
/-- C9, witness: a stub that rejects the write of `"MEDICINE1"` only, over a
ledger that holds an older record under `"MEDICINE0"`. -/
theorem C9_init_ledger_stops_witness :
    (InitLedger ⟨[(ascii "MEDICINE0", ascii "old")],
      ⟨fun _ => none, fun k _ => if k = ascii "MEDICINE1" then some ⟨ascii "boom"⟩ else none,
        none, fun _ => none⟩, []⟩).1
      = some ⟨ascii "Failed to put to world state. " ++ ascii "boom"⟩ ∧
    (QueryMedicine (InitLedger ⟨[(ascii "MEDICINE0", ascii "old")],
      ⟨fun _ => none, fun k _ => if k = ascii "MEDICINE1" then some ⟨ascii "boom"⟩ else none,
        none, fun _ => none⟩, []⟩).2 (ascii "MEDICINE0")).1 = Except.ok ⟨ascii "Amoxicilina",
          ascii "250mg/5ml", ascii "Jarabe", ascii "31/12/2023", ascii "100",
          ascii "1234567"⟩ :=
  ⟨((C9_init_ledger_stops ⟨[(ascii "MEDICINE0", ascii "old")],
      ⟨fun _ => none, fun k _ => if k = ascii "MEDICINE1" then some ⟨ascii "boom"⟩ else none,
        none, fun _ => none⟩, []⟩ ⟨ascii "boom"⟩).1 (by decide) (by decide)).1,
   ((C9_init_ledger_stops ⟨[(ascii "MEDICINE0", ascii "old")],
      ⟨fun _ => none, fun k _ => if k = ascii "MEDICINE1" then some ⟨ascii "boom"⟩ else none,
        none, fun _ => none⟩, []⟩ ⟨ascii "boom"⟩).1 (by decide) (by decide)).2.2 rfl⟩

/-! ## The range scan: C5, C6 -/

theorem createAll_world (creates : List (GoString × Medicine)) :
    ∀ s : Stub, (∀ e ∈ (createAll s creates).1, e = none) →
      (createAll s creates).2.world
          = (creates.map (fun c => (c.1, Marshal c.2))).reverse ++ s.world ∧
        (createAll s creates).2.faults = s.faults := by
  induction creates with
  | nil => intro s _; exact ⟨rfl, rfl⟩
  | cons c rest ih =>
    intro s h
    rw [createAll] at h ⊢
    have hc : s.faults.putState c.1 (Marshal c.2) = none := by
      have := h _ (List.mem_cons_self _ _)
      unfold CreateMedicine at this
      rwa [PutState_fst] at this
    have hstep : CreateMedicine s c.1 c.2.Name c.2.Concentration c.2.Form c.2.Expiration
        c.2.Quantity c.2.Code
        = (none, ⟨(c.1, Marshal c.2) :: s.world, s.faults,
            s.calls ++ [Call.PutState c.1 (Marshal c.2)]⟩) := by
      unfold CreateMedicine
      exact PutState_ok s c.1 (Marshal c.2) hc
    rw [hstep] at h ⊢
    dsimp only at h ⊢
    obtain ⟨hw, hf⟩ := ih _ (fun e he => h e (List.mem_cons_of_mem _ he))
    refine ⟨?_, hf⟩
    rw [hw]
    simp

theorem decode_encode (c : GoString × Medicine) (h : c.2.ValidUTF8) :
    (⟨(c.1, Marshal c.2).1, Unmarshal (c.1, Marshal c.2).2 newMedicine⟩ : QueryResult)
      = ⟨c.1, c.2⟩ := by
  dsimp only
  rw [Unmarshal_Marshal _ _ h]

/-- What `QueryAllMedicines` returns after a sequence of successful creates
with distinct keys and well-formed fields on the empty ledger. -/
theorem queryAll_after_creates (s : Stub) (creates : List (GoString × Medicine))
    (hempty : s.world = []) (hkeys : (creates.map Prod.fst).Nodup)
    (hvalid : ∀ c ∈ creates, c.2.ValidUTF8)
    (hok : ∀ e ∈ (createAll s creates).1, e = none)
    (hscan : s.faults.getStateByRange = none) (hnext : ∀ i, s.faults.next i = none) :
    ∃ results, (QueryAllMedicines (createAll s creates).2).1 = Except.ok results ∧
      results.Perm (creates.map (fun c => ⟨c.1, c.2⟩)) ∧
      results.Pairwise (fun a b => keyLt a.Key b.Key = true) := by
  obtain ⟨hw, hf⟩ := createAll_world creates s hok
  rw [hempty, List.append_nil] at hw
  refine ⟨_, QueryAllMedicines_ok _ (by rw [hf]; exact hscan) (by rw [hf]; exact hnext), ?_, ?_⟩
  · rw [hw]
    have hnd : (((creates.map (fun c => (c.1, Marshal c.2))).reverse).map Prod.fst).Nodup := by
      rw [List.map_reverse, List.nodup_reverse, List.map_map]
      exact hkeys
    refine ((currentState_perm _ hnd).map _).trans ?_
    refine ((List.reverse_perm _).map _).trans ?_
    rw [List.map_map]
    exact List.Perm.of_eq (List.map_congr_left (fun c hc => decode_encode c (hvalid c hc)))
  · exact List.Pairwise.map _ (fun _ _ h => h) (currentState_ascending _)

/-- C5 (amended): for every list of `CreateMedicine` calls with pairwise
distinct keys and well-formed UTF-8 fields applied, all successfully, to an
empty ledger, `QueryAllMedicines` (the scan being served) returns exactly one
pair per created key, whose record equals the arguments of that key's call;
the pairs are in ascending byte-wise key order; and issuing the same calls in
any other order gives the same result. -/
theorem C5_query_all_after_creates (s : Stub) (creates : List (GoString × Medicine))
    (hempty : s.world = []) (hkeys : (creates.map Prod.fst).Nodup)
    (hvalid : ∀ c ∈ creates, c.2.ValidUTF8)
    (hok : ∀ e ∈ (createAll s creates).1, e = none)
    (hscan : s.faults.getStateByRange = none) (hnext : ∀ i, s.faults.next i = none) :
    ∃ results, (QueryAllMedicines (createAll s creates).2).1 = Except.ok results ∧
      results.length = creates.length ∧
      results.Perm (creates.map (fun c => ⟨c.1, c.2⟩)) ∧
      results.Pairwise (fun a b => keyLt a.Key b.Key = true) ∧
      ∀ reordered : List (GoString × Medicine), reordered.Perm creates →
        (∀ e ∈ (createAll s reordered).1, e = none) →
        (QueryAllMedicines (createAll s reordered).2).1 = Except.ok results := by
  obtain ⟨results, hq, hperm, hsorted⟩ :=
    queryAll_after_creates s creates hempty hkeys hvalid hok hscan hnext
  refine ⟨results, hq, by simpa using hperm.length_eq, hperm, hsorted, ?_⟩
  intro reordered hre hok2
  obtain ⟨results2, hq2, hperm2, hsorted2⟩ :=
    queryAll_after_creates s reordered hempty
      ((hre.map Prod.fst).nodup_iff.mpr hkeys)
      (fun c hc => hvalid c (hre.mem_iff.mp hc)) hok2 hscan hnext
  have hpp : results2.Perm results :=
    (hperm2.trans (hre.map _)).trans hperm.symm
  have hanti : IsAntisymm QueryResult (fun a b => keyLt a.Key b.Key = true) :=
    ⟨fun a b hab hba => by rw [keyLt_asymm hab] at hba; cases hba⟩
  rw [hq2, List.eq_of_perm_of_sorted hpp hsorted2 hsorted]

set_option maxRecDepth 1000000 in
/-- C5, witness: two creates issued in descending key order on the empty
ledger come back in ascending key order. -/
theorem C5_query_all_after_creates_witness :
    (healthy []).world = [] ∧
    (([(ascii "MEDICINE8", ⟨ascii "Ibuprofeno", ascii "400mg", ascii "Tableta",
          ascii "31/12/2024", ascii "100", ascii "1234567"⟩),
        (ascii "MEDICINE3", ⟨ascii "Amoxicilina", ascii "250mg/5ml", ascii "Jarabe",
          ascii "31/12/2023", ascii "100", ascii "1234567"⟩)] :
        List (GoString × Medicine)).map Prod.fst).Nodup ∧
    ∃ results, (QueryAllMedicines (createAll (healthy [])
        [(ascii "MEDICINE8", ⟨ascii "Ibuprofeno", ascii "400mg", ascii "Tableta",
          ascii "31/12/2024", ascii "100", ascii "1234567"⟩),
        (ascii "MEDICINE3", ⟨ascii "Amoxicilina", ascii "250mg/5ml", ascii "Jarabe",
          ascii "31/12/2023", ascii "100", ascii "1234567"⟩)]).2).1 = Except.ok results ∧
      results.length = 2 ∧
      results.Pairwise (fun a b => keyLt a.Key b.Key = true) :=
  ⟨rfl, by decide,
    (C5_query_all_after_creates (healthy [])
      [(ascii "MEDICINE8", ⟨ascii "Ibuprofeno", ascii "400mg", ascii "Tableta",
          ascii "31/12/2024", ascii "100", ascii "1234567"⟩),
        (ascii "MEDICINE3", ⟨ascii "Amoxicilina", ascii "250mg/5ml", ascii "Jarabe",
          ascii "31/12/2023", ascii "100", ascii "1234567"⟩)]
      rfl (by decide)
      (by
        intro c hc
        simp only [List.mem_cons, List.mem_singleton, List.not_mem_nil, or_false] at hc
        rcases hc with rfl | rfl
        · exact seed_valid.2
        · exact seed_valid.1)
      (by decide) rfl (fun _ => rfl)).imp
      (fun _ h => ⟨h.1, h.2.1, h.2.2.2.1⟩)⟩

set_option maxRecDepth 1000000 in
/-- C5, counterexample: one create whose form `"\xe2\x82"` is a truncated
UTF-8 sequence; the call succeeds and `QueryAllMedicines` returns the pair
with the form U+FFFD U+FFFD, not the argument of the call. -/
theorem C5_counterexample :
    (createAll (healthy []) [(ascii "MEDICINE7", ⟨ascii "Paracetamol", ascii "500mg",
        [0xE2, 0x82], ascii "31/12/2025", ascii "40", ascii "7654321"⟩)]).1 = [none] ∧
    (QueryAllMedicines (createAll (healthy []) [(ascii "MEDICINE7", ⟨ascii "Paracetamol",
        ascii "500mg", [0xE2, 0x82], ascii "31/12/2025", ascii "40", ascii "7654321"⟩)]).2).1
      = Except.ok [⟨ascii "MEDICINE7", ⟨ascii "Paracetamol", ascii "500mg",
          [0xEF, 0xBF, 0xBD, 0xEF, 0xBF, 0xBD], ascii "31/12/2025", ascii "40",
          ascii "7654321"⟩⟩] ∧
    ([0xEF, 0xBF, 0xBD, 0xEF, 0xBF, 0xBD] : GoString) ≠ [0xE2, 0x82] := by
  decide

/-- C6 (amended): for every ledger state and key, two successive successful
`CreateMedicine` calls with the same key overwrite rather than duplicate: the
result of a following `QueryAllMedicines` (the scan being served) holds exactly
one pair with that key, whose record is the fields of the second call coerced
to valid UTF-8, hence, these fields being well-formed UTF-8, equal to them;
whether a create succeeds is decided by the put alone, whatever the ledger
holds. -/
theorem C6_create_overwrites (s : Stub) (key : GoString) (first second : Medicine)
    (h1 : (CreateMedicine s key first.Name first.Concentration first.Form first.Expiration
      first.Quantity first.Code).1 = none)
    (h2 : (CreateMedicine (CreateMedicine s key first.Name first.Concentration first.Form
      first.Expiration first.Quantity first.Code).2 key second.Name second.Concentration
      second.Form second.Expiration second.Quantity second.Code).1 = none)
    (hscan : s.faults.getStateByRange = none) (hnext : ∀ i, s.faults.next i = none) :
    (∃ results, (QueryAllMedicines (CreateMedicine (CreateMedicine s key first.Name
        first.Concentration first.Form first.Expiration first.Quantity first.Code).2 key
        second.Name second.Concentration second.Form second.Expiration second.Quantity
        second.Code).2).1 = Except.ok results ∧
      results.filter (fun r => r.Key = key)
        = [⟨key, ⟨toValidUTF8 second.Name, toValidUTF8 second.Concentration,
            toValidUTF8 second.Form, toValidUTF8 second.Expiration,
            toValidUTF8 second.Quantity, toValidUTF8 second.Code⟩⟩] ∧
      (second.ValidUTF8 → results.filter (fun r => r.Key = key) = [⟨key, second⟩])) ∧
    (∀ t : Stub, (CreateMedicine t key second.Name second.Concentration second.Form
      second.Expiration second.Quantity second.Code).1
        = t.faults.putState key (Marshal second)) := by
  constructor
  · unfold CreateMedicine at h1 h2 ⊢
    rw [PutState_fst] at h1
    rw [PutState_ok _ _ _ h1] at h2 ⊢
    dsimp only at h2 ⊢
    rw [PutState_fst] at h2
    rw [PutState_mk_ok _ _ _ _ _ h2]
    dsimp only
    have hf := filter_upsert key (Marshal second) _
      (currentState_ascending ((key, Marshal first) :: s.world))
    have hfun : ((fun r : QueryResult => decide (r.Key = key)) ∘
        fun e : GoString × GoString => (⟨e.1, Unmarshal e.2 newMedicine⟩ : QueryResult))
        = fun e => decide (e.1 = key) := rfl
    have hres : ((currentState ((key, Marshal second) :: (key, Marshal first) :: s.world)).map
        (fun e => (⟨e.1, Unmarshal e.2 newMedicine⟩ : QueryResult))).filter
          (fun r => r.Key = key)
        = [⟨key, ⟨toValidUTF8 second.Name, toValidUTF8 second.Concentration,
            toValidUTF8 second.Form, toValidUTF8 second.Expiration,
            toValidUTF8 second.Quantity, toValidUTF8 second.Code⟩⟩] := by
      rw [currentState_cons, List.filter_map, hfun, hf]
      simp only [List.map_cons, List.map_nil]
      rw [Unmarshal_Marshal_coerced]
    refine ⟨_, QueryAllMedicines_ok _ hscan hnext, hres, fun hvalid => ?_⟩
    obtain ⟨v1, v2, v3, v4, v5, v6⟩ := hvalid
    rw [hres, toValidUTF8_of_valid _ v1, toValidUTF8_of_valid _ v2, toValidUTF8_of_valid _ v3,
      toValidUTF8_of_valid _ v4, toValidUTF8_of_valid _ v5, toValidUTF8_of_valid _ v6]
  · intro t
    unfold CreateMedicine
    rw [PutState_fst]

set_option maxRecDepth 1000000 in
/-- C6, witness: the seeded key `"MEDICINE0"` is created twice more; the scan
shows it once, with the fields of the last call. -/
theorem C6_create_overwrites_witness :
    ∃ results, (QueryAllMedicines (CreateMedicine (CreateMedicine (InitLedger (healthy [])).2
        (ascii "MEDICINE0") (ascii "Paracetamol") (ascii "500mg") (ascii "Tableta")
        (ascii "31/12/2025") (ascii "40") (ascii "7654321")).2
        (ascii "MEDICINE0") (ascii "Ibuprofeno") (ascii "400mg") (ascii "Tableta")
        (ascii "31/12/2024") (ascii "100") (ascii "1234567")).2).1 = Except.ok results ∧
      results.filter (fun r => r.Key = ascii "MEDICINE0")
        = [⟨ascii "MEDICINE0", ⟨ascii "Ibuprofeno", ascii "400mg", ascii "Tableta",
            ascii "31/12/2024", ascii "100", ascii "1234567"⟩⟩] :=
  (C6_create_overwrites (InitLedger (healthy [])).2 (ascii "MEDICINE0")
    ⟨ascii "Paracetamol", ascii "500mg", ascii "Tableta", ascii "31/12/2025", ascii "40",
      ascii "7654321"⟩
    ⟨ascii "Ibuprofeno", ascii "400mg", ascii "Tableta", ascii "31/12/2024", ascii "100",
      ascii "1234567"⟩
    (by decide) (by decide) rfl (fun _ => rfl)).1.imp
    (fun _ h => ⟨h.1, h.2.2 seed_valid.2⟩)

set_option maxRecDepth 1000000 in
/-- C6, counterexample: the second create of a key gives the code `"\x80"`,
a stray continuation byte; both calls succeed and `QueryAllMedicines` shows
the key once, with the code U+FFFD instead of the code of the second call. -/
theorem C6_counterexample :
    (CreateMedicine (healthy []) (ascii "MEDICINE7") (ascii "Paracetamol") (ascii "500mg")
        (ascii "Tableta") (ascii "31/12/2025") (ascii "40") (ascii "7654321")).1 = none ∧
    (CreateMedicine (CreateMedicine (healthy []) (ascii "MEDICINE7") (ascii "Paracetamol")
        (ascii "500mg") (ascii "Tableta") (ascii "31/12/2025") (ascii "40")
        (ascii "7654321")).2 (ascii "MEDICINE7") (ascii "Paracetamol") (ascii "1g")
        (ascii "Tableta") (ascii "31/12/2026") (ascii "60") [0x80]).1 = none ∧
    (QueryAllMedicines (CreateMedicine (CreateMedicine (healthy []) (ascii "MEDICINE7")
        (ascii "Paracetamol") (ascii "500mg") (ascii "Tableta") (ascii "31/12/2025")
        (ascii "40") (ascii "7654321")).2 (ascii "MEDICINE7") (ascii "Paracetamol")
        (ascii "1g") (ascii "Tableta") (ascii "31/12/2026") (ascii "60") [0x80]).2).1
      = Except.ok [⟨ascii "MEDICINE7", ⟨ascii "Paracetamol", ascii "1g", ascii "Tableta",
          ascii "31/12/2026", ascii "60", [0xEF, 0xBF, 0xBD]⟩⟩] ∧
    ([0xEF, 0xBF, 0xBD] : GoString) ≠ [0x80] := by
  decide

end Fabcar
